import Mathlib

/-!
The scrypt-genpass program: parameter selection, validation and the key-derivation pipeline

Shallow embedding of `lib/genpass/genpass.c` (`pickparams`, `checkparams`, `bintohex`,
`sha256string`, `getsalt`, `genpass`) and of `main.c` (`usage`, `unit_tests`, `init_parms`,
`main`), and the properties of them that the specification states.

Conventions of the embedding.

* `uint32_t` values are natural numbers below `2 ^ 32`.  The products `MEGA * maxmem`,
  `MEGA * megaops`, `1000000 * maxmem`, `1000000 * megaops`, `*r * 4`, `*r * 128` and `r * p`
  are computed by C in 32-bit unsigned arithmetic (`int` and `unsigned` are 32 bits wide),
  which is written here as an explicit `% 2 ^ 32`.  `size_t` and `uint64_t` hold every other
  integer that occurs; `(uint64_t)(1) << e` is written `(1 <<< e) % 2 ^ 64`.
* The `int` counter `*logN` only takes the values `1, ..., 63` in `pickparams` and is a
  natural number there; the `int logN` argument of `checkparams` is an integer.
* `double` values are modelled by rational numbers.  Every floating-point operation of
  `pickparams` is exact: the operands are integers below `2 ^ 32`, and they are only divided
  by powers of two.  In `checkparams` the only inexact operation is the last division, by
  `r * p`, whose result is only compared with `4`.  Rounding to nearest cannot move that
  quotient across `4`: it is `a / (2 ^ logN * (r * p))` with an integer `a < 2 ^ 32`, so when
  it is at least `2` the denominator is below `2 ^ 31`, and the quotient is either at least
  `4` or below `4` by at least `2 ^ (-31)`, far more than the rounding error.
  A floating-point division by zero yields an infinity or a NaN, and neither is `< 4`.
* Bytes are natural numbers below `256`, byte buffers are lists of bytes.
* The hash `SHA256` and the key-derivation function `crypto_scrypt` are parameters.
* `main` is a function of the options that `getopt` returns, with the value of `atoi` on each
  numeric argument, and of the remaining arguments; what it does is a list of events (lines
  on standard output, messages on standard error, calls of `crypto_scrypt` and of the
  password encoder `hashtopass`) and an exit status.  The functions of other files
  (`hashtopass`, `tarsnap_readpass`), the reading of the key file, the text of `SGVERSION`,
  the width of `size_t` and the bytes that the uninitialised buffer `dk` holds are the fields
  of a `World`.
-/

namespace Genpass

/-! ## Parameter selection -/

/-- The constant of `#define MEGA (1024*1024)`. -/
def MEGA : Nat := 1024 * 1024

/-- The loop `for (*logN = 1; *logN < 63; *logN += 1) if ((uint64_t)(1) << *logN > maxN / 2)
break;` of `pickparams`, entered with the given value of `*logN`; the result is the value of
`*logN` when the loop is left. -/
def logNLoop (maxN : ℚ) (logN : Nat) : Nat :=
  if logN < 63 then
    if (((1 <<< logN) % 2 ^ 64 : Nat) : ℚ) > maxN / 2 then logN
    else logNLoop maxN (logN + 1)
  else logN
termination_by 63 - logN

/-- The outputs of `pickparams`: its return code and the values stored through `logN`, `r`
and `p`. -/
structure Picked where
  rc : Int
  logN : Nat
  r : Nat
  p : Nat
  deriving DecidableEq

/-- The assignment `memlimit = MEGA * maxmem;` of `pickparams`. -/
def pick_memlimit (maxmem : Nat) : Nat := (MEGA * maxmem) % 2 ^ 32

/-- The integer that `opslimit = MEGA * megaops;` of `pickparams` converts to `double`. -/
def pick_opslimit (megaops : Nat) : Nat := (MEGA * megaops) % 2 ^ 32

/-- The function `pickparams(maxmem, megaops, &logN, &r, &p)`. -/
def pickparams (maxmem megaops : Nat) : Picked :=
  let memlimit : Nat := pick_memlimit maxmem
  let opslimit : ℚ := (pick_opslimit megaops : ℚ)
  let r : Nat := 8
  if opslimit < ((memlimit / 32 : Nat) : ℚ) then
    let p : Nat := 1
    let maxN : ℚ := opslimit / (((r * 4) % 2 ^ 32 : Nat) : ℚ)
    let logN : Nat := logNLoop maxN 1
    { rc := 0, logN := logN, r := r, p := p }
  else
    let maxN : ℚ := ((memlimit / ((r * 128) % 2 ^ 32) : Nat) : ℚ)
    let logN : Nat := logNLoop maxN 1
    let maxrp : ℚ := (opslimit / (4 : ℚ)) / (((1 <<< logN) % 2 ^ 64 : Nat) : ℚ)
    let maxrp : ℚ := if maxrp > 0x3fffffff then 0x3fffffff else maxrp
    let p : Nat := (⌊maxrp⌋₊ % 2 ^ 32) / r
    { rc := 0, logN := logN, r := r, p := p }

/-- The test `opslimit < memlimit/32` of `pickparams`: the CPU limit is the stronger one. -/
def cpuBound (maxmem megaops : Nat) : Prop :=
  (pick_opslimit megaops : ℚ) < ((pick_memlimit maxmem / 32 : Nat) : ℚ)

instance (maxmem megaops : Nat) : Decidable (cpuBound maxmem megaops) := by
  unfold cpuBound
  infer_instance

/-- The value of the local variable `maxN` of `pickparams`: `opslimit / (*r * 4)` in the
CPU-bound branch and `memlimit / (*r * 128)` in the memory-bound branch, with `*r = 8`. -/
def pick_maxN (maxmem megaops : Nat) : ℚ :=
  if cpuBound maxmem megaops then
    (pick_opslimit megaops : ℚ) / (((8 * 4) % 2 ^ 32 : Nat) : ℚ)
  else ((pick_memlimit maxmem / ((8 * 128) % 2 ^ 32) : Nat) : ℚ)

/-! ## Parameter validation -/

/-- The function `checkparams(maxmem, megaops, logN, r, p)`.  The result is `none` where the
C program divides an integer by zero (`r = 0` with both sanity checks passed). -/
def checkparams (maxmem megaops : Nat) (logN : Int) (r p : Nat) : Option Int :=
  let memlimit : Nat := (1000000 * maxmem) % 2 ^ 32
  let opslimit : ℚ := (((1000000 * megaops) % 2 ^ 32 : Nat) : ℚ)
  if logN < 1 ∨ logN > 63 then some 7
  else if r * p ≥ 0x40000000 then some 7
  else
    let N : Nat := (1 <<< logN.toNat) % 2 ^ 64
    if r = 0 then none
    else if (memlimit / N) / r < 128 then some 9
    else
      let rp : Nat := (r * p) % 2 ^ 32
      if rp ≠ 0 ∧ (opslimit / (N : ℚ)) / (rp : ℚ) < 4 then some 10
      else some 0

/-! ## Hex encoding, salt and key derivation -/

/-- One lowercase hexadecimal digit, for a value below `16`. -/
def hexdigit (d : Nat) : Char :=
  if d < 10 then Char.ofNat (48 + d) else Char.ofNat (87 + d)

/-- The two characters that `sprintf(.., "%02x", b)` produces for a byte `b`. -/
def fmt02x (b : Nat) : List Char := [hexdigit (b / 16), hexdigit (b % 16)]

/-- The function `bintohex(outstring, nbytes, data)`: its return code and the characters it
stores at `outstring[0 .. 2 * nbytes]`.  Each `sprintf` at offset `2 * i` stores two digits
and a terminator, which the next one overwrites; the last statement stores the terminator at
`2 * nbytes`. -/
def bintohex (nbytes : Nat) (data : List Nat) : Int × List Char :=
  let out : List Char := (List.range nbytes).foldl
    (fun out i => out.take (2 * i) ++ fmt02x (data.getD i 0) ++ [Char.ofNat 0]) []
  (0, out.take (2 * nbytes) ++ [Char.ofNat 0])

/-- The C string held in a character buffer: the characters before the first terminator. -/
def cstring (buf : List Char) : String := String.mk (buf.takeWhile (fun c => c ≠ Char.ofNat 0))

/-- The function `strlen` on a byte buffer: the number of bytes before the first zero byte. -/
def strlen (s : List Nat) : Nat := (s.takeWhile (fun b => b ≠ 0)).length

/-- The function `sha256string(hash, s, n)`: the digest of the first `n` bytes at `s`. -/
def sha256string (SHA256 : List Nat → List Nat) (s : List Nat) (n : Nat) : List Nat :=
  SHA256 (s.take n)

/-- The function `getsalt(salt, site, verbose)`: its return code, the salt, and the lines it
prints on standard output. -/
def getsalt (SHA256 : List Nat → List Nat) (site : List Nat) (verbose : Bool) :
    Int × List Nat × List String :=
  let salt := sha256string SHA256 site (strlen site)
  if verbose then
    let buf := (bintohex 32 salt).2
    (0, salt, ["Site hex: " ++ cstring buf ++ "\n"])
  else (0, salt, [])

/-- The fields of `sg_parms_t` (declared in `genpass.h`), as `main` and `genpass` use them. -/
structure sg_parms_t where
  passwd : List Nat
  passwdlen : Nat
  site : List Nat
  maxmem : Nat
  megaops : Nat
  keyfile : Option (List Nat)
  numbers_only : Nat
  verbose : Bool
  outputlength : Nat

/-- The arguments of one call `crypto_scrypt(passwd, passwdlen, salt, saltlen, N, r, p, buf,
buflen)`, the output buffer apart. -/
structure ScryptArgs where
  passwd : List Nat
  passwdlen : Nat
  salt : List Nat
  saltlen : Nat
  N : Nat
  r : Nat
  p : Nat
  buflen : Nat
  deriving DecidableEq

/-- What `genpass` does: its return code, the bytes stored in `dk` (`none` when nothing was
stored), the calls of `crypto_scrypt` it made, and the lines printed on standard output. -/
structure Derived where
  rc : Int
  dk : Option (List Nat)
  kdfCalls : List ScryptArgs
  stdout : List String

/-- The function `genpass(dk, sg_parms)`.  `crypto_scrypt args` is `some key` when the call
returns zero having stored `key` in the output buffer, and `none` when it returns nonzero. -/
def genpass (SHA256 : List Nat → List Nat) (crypto_scrypt : ScryptArgs → Option (List Nat))
    (sg_parms : sg_parms_t) : Derived :=
  let pk := pickparams sg_parms.maxmem sg_parms.megaops
  if pk.rc ≠ 0 then { rc := pk.rc, dk := none, kdfCalls := [], stdout := [] }
  else
    let N : Nat := (1 <<< pk.logN) % 2 ^ 64
    let gs := getsalt SHA256 sg_parms.site sg_parms.verbose
    if gs.1 ≠ 0 then { rc := gs.1, dk := none, kdfCalls := [], stdout := gs.2.2 }
    else
      let args : ScryptArgs :=
        { passwd := sg_parms.passwd, passwdlen := sg_parms.passwdlen, salt := gs.2.1,
          saltlen := 32, N := N, r := pk.r, p := pk.p, buflen := 64 }
      match crypto_scrypt args with
      | some key => { rc := 0, dk := some key, kdfCalls := [args], stdout := gs.2.2 }
      | none => { rc := 3, dk := none, kdfCalls := [args], stdout := gs.2.2 }

/-! ## The command line program -/

/-- One option as the loop over `getopt(argc, argv, "htk:l:m:no:p:rv")` sees it: the option
letter, with its argument, or the value of `atoi` on its argument; `other` is `h` or an
option that `getopt` does not recognise. -/
inductive Opt where
  | k (optarg : List Nat)
  | l (atoi : Int)
  | m (atoi : Int)
  | n
  | o (atoi : Int)
  | p (optarg : List Nat)
  | t
  | r
  | v
  | other

/-- What the program does that can be observed, in order. -/
inductive Event where
  | stdout (line : String)
  | stderr (line : String)
  | kdf (args : ScryptArgs)
  | encode (numbers_only : Nat) (len : Nat) (dk : List Nat)
  deriving DecidableEq

/-- A run of the program: its events and its exit status. -/
structure Run where
  events : List Event
  status : Int

/-- The outcome of the block of `main` that reads the key file. -/
inductive KeyfileRead where
  | open_failed
  | alloc_failed
  | contents (bytes : List Nat)

/-- What `main` takes from outside `main.c` and `genpass.c`. -/
structure World where
  SHA256 : List Nat → List Nat
  crypto_scrypt : ScryptArgs → Option (List Nat)
  hashtopass : Nat → Nat → List Nat → String
  readpass : Bool → Option (List Nat)
  readfile : List Nat → KeyfileRead
  SGVERSION : String
  size_bits : Nat
  dk0 : List Nat

/-- The conversion of an `int` to an unsigned type of the given width. -/
def to_unsigned (bits : Nat) (i : Int) : Nat := (i % 2 ^ bits).toNat

/-- The text of a C string given by its bytes. -/
def bytes_string (bs : List Nat) : String :=
  String.mk ((bs.takeWhile (fun b => b ≠ 0)).map Char.ofNat)

/-- The function `usage()`. -/
def usage (w : World) : Run :=
  { events :=
      [Event.stderr
        "Usage: scrypt-genpass [-l LEN] [-m MAXMEM] [-n] [-o MAXOPS] [-k KEYFILE]\n",
       Event.stderr "                      [-p PASS] [-r] [-v] <site>\n",
       Event.stderr "       scrypt-genpass -t\n",
       Event.stderr
        "\nFor documentation, see https://github.com/chrisoei/scrypt-genpass/wiki\n\n",
       Event.stderr ("Commit hash: " ++ w.SGVERSION ++ "\n")],
    status := 1 }

/-- The function `unit_tests()`; the string literal `"abc"` is the bytes `97, 98, 99` and a
terminator. -/
def unit_tests (w : World) : Run :=
  let testhash := sha256string w.SHA256 [97, 98, 99, 0] 3
  let testbuf := (bintohex 32 testhash).2
  if cstring testbuf ≠ "ba7816bf8f01cfea414140de5dae2223b00361a396177a9cb410ff61f20015ad" then
    { events := [Event.stderr "SHA256 test failed\n"], status := 1 }
  else { events := [Event.stderr "All internal tests pass\n"], status := 0 }

/-- The variables of `main` that the option loop sets: the fields of `sg_parms` (`passwd` may
be `NULL`, `site` is set later) and `repeat`. -/
structure Parsed where
  passwd : Option (List Nat)
  passwdlen : Nat
  maxmem : Nat
  megaops : Nat
  keyfile : Option (List Nat)
  numbers_only : Nat
  verbose : Bool
  outputlength : Nat
  repeat_pass : Bool

/-- The function `init_parms`, with `repeat = false`. -/
def init_parms : Parsed :=
  { passwd := none, passwdlen := 0, maxmem := 1000, megaops := 32, keyfile := none,
    numbers_only := 0, verbose := false, outputlength := 16, repeat_pass := false }

/-- One turn of the option loop of `main`: the `switch (ch)`.  `unit_tests` and `usage` end
the program. -/
def parse_step (w : World) (st : Parsed) : Opt → Except Run Parsed
  | Opt.k optarg => Except.ok { st with keyfile := some optarg }
  | Opt.l i => Except.ok { st with outputlength := to_unsigned w.size_bits i }
  | Opt.m i => Except.ok { st with maxmem := to_unsigned 32 i }
  | Opt.n => Except.ok { st with numbers_only := st.numbers_only + 1 }
  | Opt.o i => Except.ok { st with megaops := to_unsigned 32 i }
  | Opt.p optarg => Except.ok { st with passwd := some optarg }
  | Opt.t => Except.error (unit_tests w)
  | Opt.r => Except.ok { st with repeat_pass := true }
  | Opt.v => Except.ok { st with verbose := true }
  | Opt.other => Except.error (usage w)

/-- The option loop of `main`. -/
def parse_opts (w : World) (st : Parsed) : List Opt → Except Run Parsed
  | [] => Except.ok st
  | opt :: opts =>
    match parse_step w st opt with
    | Except.error run => Except.error run
    | Except.ok st2 => parse_opts w st2 opts

/-- The passphrase of `main`: the argument of `-p`, or else what `tarsnap_readpass` reads;
`none` when `tarsnap_readpass` fails. -/
def get_passwd (w : World) (st : Parsed) : Option (List Nat) :=
  match st.passwd with
  | some pw => some pw
  | none => w.readpass st.repeat_pass

/-- The block `if (sg_parms.keyfile)` of `main`: the new `passwd` and `passwdlen`, or the run
that ends there.  `fread` of one item of size `keyfilelen` does not return `1` for an empty
file. -/
def main_keyfile (w : World) (keyfile : Option (List Nat)) (passwd : List Nat)
    (passwdlen : Nat) : Except Run (List Nat × Nat) :=
  match keyfile with
  | none => Except.ok (passwd, passwdlen)
  | some name =>
    match w.readfile name with
    | KeyfileRead.open_failed =>
      Except.error
        { events := [Event.stderr ("Unable to open keyfile " ++ bytes_string name)],
          status := 1 }
    | KeyfileRead.alloc_failed =>
      Except.error
        { events := [Event.stderr "Unable to allocate memory for combined key"], status := 1 }
    | KeyfileRead.contents bytes =>
      if bytes.length = 0 then
        Except.error { events := [Event.stderr "Unable to read keyfile"], status := 1 }
      else Except.ok (passwd.take passwdlen ++ bytes, passwdlen + bytes.length)

/-- The message of the `switch (rc)` at the end of `main`. -/
def rc_warning (rc : Int) (argc : Int) (argv : List (List Nat))
    (keyfile : Option (List Nat)) : List Event :=
  if rc = 1 then [Event.stderr "Error determining amount of available memory"]
  else if rc = 2 then [Event.stderr "Error reading clocks"]
  else if rc = 3 then [Event.stderr "Error computing derived key"]
  else if rc = 4 then [Event.stderr "Error reading salt"]
  else if rc = 5 then [Event.stderr "OpenSSL error"]
  else if rc = 6 then [Event.stderr "Error allocating memory"]
  else if rc = 7 then [Event.stderr "Input is not valid scrypt-encrypted block"]
  else if rc = 8 then [Event.stderr "Unrecognized scrypt format version"]
  else if rc = 9 then [Event.stderr "Decrypting file would require too much memory"]
  else if rc = 10 then [Event.stderr "Decrypting file would take too much CPU time"]
  else if rc = 11 then [Event.stderr "Passphrase is incorrect"]
  else if rc = 12 then
    [Event.stderr ("Error writing file: " ++
      (if argc > 1 then bytes_string (argv.getD 1 []) else "standard output"))]
  else if rc = 13 then [Event.stderr ("Error reading file: " ++ bytes_string (argv.getD 0 []))]
  else if rc = 14 then
    [Event.stderr ("Unable to open keyfile: " ++ bytes_string (keyfile.getD []))]
  else if rc = 15 then [Event.stderr "Unable to allocate memory for combined key"]
  else []

/-- The events of `main` from `sha256string(passhash, ..)` up to the test of the output
length: the line `Master hex` when verbose, what `genpass` prints and its call of
`crypto_scrypt`, and the line `Pass hex` when verbose. -/
def main_diag (w : World) (sg : sg_parms_t) : List Event :=
  let passhash := sha256string w.SHA256 sg.passwd sg.passwdlen
  let ev1 : List Event :=
    if sg.verbose then
      [Event.stdout ("Master hex: " ++ cstring (bintohex 32 passhash).2 ++ "\n")]
    else []
  let g := genpass w.SHA256 w.crypto_scrypt sg
  let dk := g.dk.getD w.dk0
  let ev2 : List Event := g.stdout.map Event.stdout ++ g.kdfCalls.map Event.kdf
  let ev3 : List Event :=
    if sg.verbose then [Event.stdout ("Pass hex: " ++ cstring (bintohex 64 dk).2 ++ "\n")]
    else []
  ev1 ++ ev2 ++ ev3

/-- The part of `main` from `uint8_t passhash[32];` to its end, for the `sg_parms` that the
earlier part has filled in. -/
def main_derive (w : World) (sg : sg_parms_t) : Run :=
  let g := genpass w.SHA256 w.crypto_scrypt sg
  let rc := g.rc
  let dk := g.dk.getD w.dk0
  if sg.outputlength < 3 ∨ sg.outputlength > 64 then
    { events := main_diag w sg ++
        [Event.stderr ("Unable to generate password for output length " ++
          toString sg.outputlength)],
      status := 1 }
  else
    let output := w.hashtopass sg.numbers_only sg.outputlength dk
    let line := (if sg.verbose then "Generated password: " else "") ++ output ++ "\n"
    let ev := main_diag w sg ++
      [Event.encode sg.numbers_only sg.outputlength dk, Event.stdout line]
    if rc ≠ 0 then
      { events := ev ++ rc_warning rc 1 [sg.site] sg.keyfile, status := 1 }
    else { events := ev, status := 0 }

/-- The function `main`, for the options found by `getopt` and the arguments that remain
after them. -/
def main (w : World) (argc : Int) (opts : List Opt) (rest : List (List Nat)) : Run :=
  if argc < 1 then usage w
  else
    match parse_opts w init_parms opts with
    | Except.error run => run
    | Except.ok st =>
      match rest with
      | [site] =>
        match get_passwd w st with
        | none => { events := [], status := 1 }
        | some passwd =>
          match main_keyfile w st.keyfile passwd (strlen passwd) with
          | Except.error run => run
          | Except.ok (passwd2, passwdlen2) =>
            main_derive w
              { passwd := passwd2, passwdlen := passwdlen2, site := site,
                maxmem := st.maxmem, megaops := st.megaops, keyfile := st.keyfile,
                numbers_only := st.numbers_only, verbose := st.verbose,
                outputlength := st.outputlength }
      | _ => usage w

/-! ## The exponent search -/

theorem shl_one_eq (e : Nat) (he : e ≤ 63) : (1 <<< e) % 2 ^ 64 = 2 ^ e := by
  rw [Nat.shiftLeft_eq, one_mul]
  apply Nat.mod_eq_of_lt
  exact Nat.pow_lt_pow_right (by norm_num) (by omega)

theorem logNLoop_unfold (maxN : ℚ) (logN : Nat) :
    logNLoop maxN logN =
      if logN < 63 then
        if (((1 <<< logN) % 2 ^ 64 : Nat) : ℚ) > maxN / 2 then logN
        else logNLoop maxN (logN + 1)
      else logN := by
  rw [logNLoop]

/-- The loop started at `s ≤ 63` ends with an exponent in `[s, 63]`; an exponent below `63` is
one whose power exceeds `maxN / 2`, and no earlier exponent from `s` on has that property. -/
theorem logNLoop_spec (maxN : ℚ) : ∀ (k s : Nat), 63 - s = k → s ≤ 63 →
    s ≤ logNLoop maxN s ∧ logNLoop maxN s ≤ 63 ∧
    (logNLoop maxN s < 63 → maxN / 2 < (2 : ℚ) ^ logNLoop maxN s) ∧
    ∀ j, s ≤ j → j < logNLoop maxN s → (2 : ℚ) ^ j ≤ maxN / 2 := by
  intro k
  induction k with
  | zero =>
    intro s hk hs
    have h63 : s = 63 := by omega
    subst h63
    rw [logNLoop_unfold]
    simp
    intro j h1 h2
    omega
  | succ k ih =>
    intro s hk hs
    have hlt : s < 63 := by omega
    rw [logNLoop_unfold, if_pos hlt, shl_one_eq s hs]
    by_cases hc : ((2 ^ s : Nat) : ℚ) > maxN / 2
    · rw [if_pos hc]
      refine ⟨le_refl _, hs, ?_, ?_⟩
      · intro _
        simpa using hc
      · intro j h1 h2
        omega
    · rw [if_neg hc]
      obtain ⟨h1, h2, h3, h4⟩ := ih (s + 1) (by omega) (by omega)
      refine ⟨by omega, h2, h3, ?_⟩
      intro j hj1 hj2
      rcases Nat.eq_or_lt_of_le hj1 with heq | hgt
      · subst heq
        have := not_lt.mp hc
        simpa using this
      · exact h4 j hgt hj2

theorem logNLoop_ge (maxN : ℚ) (s : Nat) (hs : s ≤ 63) : s ≤ logNLoop maxN s :=
  (logNLoop_spec maxN (63 - s) s rfl hs).1

theorem logNLoop_le (maxN : ℚ) (s : Nat) (hs : s ≤ 63) : logNLoop maxN s ≤ 63 :=
  (logNLoop_spec maxN (63 - s) s rfl hs).2.1

theorem logNLoop_exit (maxN : ℚ) (s : Nat) (hs : s ≤ 63) (h : logNLoop maxN s < 63) :
    maxN / 2 < (2 : ℚ) ^ logNLoop maxN s :=
  (logNLoop_spec maxN (63 - s) s rfl hs).2.2.1 h

theorem logNLoop_before (maxN : ℚ) (s j : Nat) (hs : s ≤ 63) (h1 : s ≤ j)
    (h2 : j < logNLoop maxN s) : (2 : ℚ) ^ j ≤ maxN / 2 :=
  (logNLoop_spec maxN (63 - s) s rfl hs).2.2.2 j h1 h2

/-- The loop is determined by the two powers that bracket `maxN / 2`. -/
theorem logNLoop_eq_of (maxN : ℚ) (s e : Nat) (hse : s ≤ e) (he : e ≤ 62)
    (hlo : s = e ∨ (2 : ℚ) ^ (e - 1) ≤ maxN / 2) (hhi : maxN / 2 < (2 : ℚ) ^ e) :
    logNLoop maxN s = e := by
  have hs : s ≤ 63 := by omega
  rcases Nat.lt_trichotomy (logNLoop maxN s) e with hlt | heq | hgt
  · exfalso
    have hex := logNLoop_exit maxN s hs (by omega)
    have hge := logNLoop_ge maxN s hs
    rcases hlo with h | h
    · omega
    · have hpow : (2 : ℚ) ^ logNLoop maxN s ≤ (2 : ℚ) ^ (e - 1) :=
        pow_le_pow_right₀ (by norm_num) (by omega)
      linarith
  · exact heq
  · exfalso
    have := logNLoop_before maxN s e hs hse hgt
    linarith

/-! ## Normal forms of `pickparams` -/

theorem pick_opslimit_lt (megaops : Nat) : pick_opslimit megaops < 2 ^ 32 :=
  Nat.mod_lt _ (by norm_num)

theorem pick_memlimit_lt (maxmem : Nat) : pick_memlimit maxmem < 2 ^ 32 :=
  Nat.mod_lt _ (by norm_num)

theorem pick_opslimit_le (megaops : Nat) : pick_opslimit megaops ≤ megaops * 2 ^ 20 := by
  unfold pick_opslimit MEGA
  calc 1024 * 1024 * megaops % 2 ^ 32 ≤ 1024 * 1024 * megaops := Nat.mod_le _ _
    _ = megaops * 2 ^ 20 := by ring

theorem pick_memlimit_le (maxmem : Nat) : pick_memlimit maxmem ≤ maxmem * 2 ^ 20 := by
  unfold pick_memlimit MEGA
  calc 1024 * 1024 * maxmem % 2 ^ 32 ≤ 1024 * 1024 * maxmem := Nat.mod_le _ _
    _ = maxmem * 2 ^ 20 := by ring

theorem cpuBound_iff (maxmem megaops : Nat) :
    cpuBound maxmem megaops ↔ pick_opslimit megaops < pick_memlimit maxmem / 32 := by
  unfold cpuBound
  exact Nat.cast_lt

/-- The exponent found for a ceiling `a / d` with natural `a < 2 ^ 32` and `d > 0`, in terms of
natural-number arithmetic. -/
theorem logNLoop_nat (a d : Nat) (hd : 0 < d) (ha : a < 2 ^ 32) :
    1 ≤ logNLoop ((a : ℚ) / (d : ℚ)) 1 ∧ logNLoop ((a : ℚ) / (d : ℚ)) 1 ≤ 62 ∧
    a < 2 * d * 2 ^ logNLoop ((a : ℚ) / (d : ℚ)) 1 ∧
    (1 < logNLoop ((a : ℚ) / (d : ℚ)) 1 → d * 2 ^ logNLoop ((a : ℚ) / (d : ℚ)) 1 ≤ a) := by
  have hdq : (0 : ℚ) < (d : ℚ) := by exact_mod_cast hd
  have hge := logNLoop_ge ((a : ℚ) / (d : ℚ)) 1 (by norm_num)
  have hle := logNLoop_le ((a : ℚ) / (d : ℚ)) 1 (by norm_num)
  have hne : logNLoop ((a : ℚ) / (d : ℚ)) 1 ≤ 62 := by
    by_contra hcon
    have h63 : 62 < logNLoop ((a : ℚ) / (d : ℚ)) 1 := by omega
    have hb := logNLoop_before ((a : ℚ) / (d : ℚ)) 1 62 (by norm_num) (by norm_num) h63
    rw [div_div, le_div_iff₀ (by positivity)] at hb
    have hb2 : (2 ^ 62 * (d * 2) : Nat) ≤ a := by exact_mod_cast hb
    have : 2 ^ 62 * (1 * 2) ≤ 2 ^ 62 * (d * 2) :=
      Nat.mul_le_mul_left _ (Nat.mul_le_mul_right _ hd)
    omega
  refine ⟨hge, hne, ?_, ?_⟩
  · have hex := logNLoop_exit ((a : ℚ) / (d : ℚ)) 1 (by norm_num) (by omega)
    rw [div_div, div_lt_iff₀ (by positivity)] at hex
    have hex2 : a < 2 ^ logNLoop ((a : ℚ) / (d : ℚ)) 1 * (d * 2) := by exact_mod_cast hex
    calc a < 2 ^ logNLoop ((a : ℚ) / (d : ℚ)) 1 * (d * 2) := hex2
      _ = 2 * d * 2 ^ logNLoop ((a : ℚ) / (d : ℚ)) 1 := by ring
  · intro h1
    have hb := logNLoop_before ((a : ℚ) / (d : ℚ)) 1
      (logNLoop ((a : ℚ) / (d : ℚ)) 1 - 1) (by norm_num) (by omega) (by omega)
    rw [div_div, le_div_iff₀ (by positivity)] at hb
    have hb2 : 2 ^ (logNLoop ((a : ℚ) / (d : ℚ)) 1 - 1) * (d * 2) ≤ a := by exact_mod_cast hb
    have hp : 2 ^ logNLoop ((a : ℚ) / (d : ℚ)) 1
        = 2 ^ (logNLoop ((a : ℚ) / (d : ℚ)) 1 - 1) * 2 := by
      rw [← pow_succ]
      congr 1
      omega
    calc d * 2 ^ logNLoop ((a : ℚ) / (d : ℚ)) 1
        = 2 ^ (logNLoop ((a : ℚ) / (d : ℚ)) 1 - 1) * (d * 2) := by rw [hp]; ring
      _ ≤ a := hb2

theorem pick_maxN_cpu (maxmem megaops : Nat) (h : cpuBound maxmem megaops) :
    pick_maxN maxmem megaops = (pick_opslimit megaops : ℚ) / ((32 : Nat) : ℚ) := by
  unfold pick_maxN
  rw [if_pos h]
  norm_num

theorem pick_maxN_mem (maxmem megaops : Nat) (h : ¬ cpuBound maxmem megaops) :
    pick_maxN maxmem megaops = ((pick_memlimit maxmem / 1024 : Nat) : ℚ) / ((1 : Nat) : ℚ) := by
  unfold pick_maxN
  rw [if_neg h]
  simp

/-- In the CPU-bound branch `pickparams` stores the exponent found for `maxN`, `r = 8` and
`p = 1`. -/
theorem pickparams_cpu (maxmem megaops : Nat) (h : cpuBound maxmem megaops) :
    pickparams maxmem megaops =
      { rc := 0, logN := logNLoop (pick_maxN maxmem megaops) 1, r := 8, p := 1 } := by
  have h2 := h
  unfold cpuBound at h2
  unfold pickparams pick_maxN
  simp only [if_pos h, if_pos h2]

/-- In the memory-bound branch `pickparams` stores the exponent found for `maxN`, `r = 8` and
`p = opslimit / (4 * N) / 8` in integer arithmetic: the clamp at `0x3fffffff` is never
active. -/
theorem pickparams_mem (maxmem megaops : Nat) (h : ¬ cpuBound maxmem megaops) :
    pickparams maxmem megaops =
      { rc := 0, logN := logNLoop (pick_maxN maxmem megaops) 1, r := 8,
        p := pick_opslimit megaops / (4 * 2 ^ logNLoop (pick_maxN maxmem megaops) 1) / 8 } := by
  have h2 := h
  unfold cpuBound at h2
  have hL : logNLoop (pick_maxN maxmem megaops) 1 ≤ 63 := logNLoop_le _ _ (by norm_num)
  have hmax : pick_maxN maxmem megaops
      = ((pick_memlimit maxmem / ((8 * 128) % 2 ^ 32) : Nat) : ℚ) := by
    unfold pick_maxN
    rw [if_neg h]
  have ho := pick_opslimit_lt megaops
  unfold pickparams
  simp only [if_neg h2]
  rw [← hmax, shl_one_eq _ hL]
  have hq : (pick_opslimit megaops : ℚ) / 4 /
      ((2 ^ logNLoop (pick_maxN maxmem megaops) 1 : Nat) : ℚ)
      = (pick_opslimit megaops : ℚ) /
        ((4 * 2 ^ logNLoop (pick_maxN maxmem megaops) 1 : Nat) : ℚ) := by
    rw [div_div]
    push_cast
    rfl
  have hfl : ⌊(pick_opslimit megaops : ℚ) /
      ((4 * 2 ^ logNLoop (pick_maxN maxmem megaops) 1 : Nat) : ℚ)⌋₊
      = pick_opslimit megaops / (4 * 2 ^ logNLoop (pick_maxN maxmem megaops) 1) :=
    Nat.floor_div_eq_div _ _
  have hle : pick_opslimit megaops / (4 * 2 ^ logNLoop (pick_maxN maxmem megaops) 1)
      ≤ pick_opslimit megaops := Nat.div_le_self _ _
  have hclamp : ¬ ((pick_opslimit megaops : ℚ) /
      ((4 * 2 ^ logNLoop (pick_maxN maxmem megaops) 1 : Nat) : ℚ) > 0x3fffffff) := by
    rw [not_lt, div_le_iff₀ (by positivity)]
    have hpos : 1 ≤ 2 ^ logNLoop (pick_maxN maxmem megaops) 1 := Nat.one_le_two_pow
    have : pick_opslimit megaops ≤
        0x3fffffff * (4 * 2 ^ logNLoop (pick_maxN maxmem megaops) 1) := by
      have h3 : 0x3fffffff * (4 * 1) ≤
          0x3fffffff * (4 * 2 ^ logNLoop (pick_maxN maxmem megaops) 1) :=
        Nat.mul_le_mul_left _ (Nat.mul_le_mul_left _ hpos)
      have h4 : pick_opslimit megaops ≤ 0x3fffffff * (4 * 1) := by
        have hdvd : 2 ^ 20 ∣ pick_opslimit megaops := by
          unfold pick_opslimit MEGA
          exact (Nat.dvd_mod_iff (by norm_num)).mpr (Dvd.intro _ rfl)
        omega
      exact le_trans h4 h3
    exact_mod_cast this
  rw [hq, if_neg hclamp, hfl, Nat.mod_eq_of_lt (by omega)]

/-- Evaluation of the memory-bound branch from natural-number bounds on the exponent. -/
theorem pickparams_mem_eval (maxmem megaops e : Nat)
    (h : ¬ pick_opslimit megaops < pick_memlimit maxmem / 32) (he1 : 1 ≤ e) (he : e ≤ 62)
    (hlo : 1 = e ∨ 2 * 2 ^ (e - 1) ≤ pick_memlimit maxmem / 1024)
    (hhi : pick_memlimit maxmem / 1024 < 2 * 2 ^ e) :
    pickparams maxmem megaops =
      { rc := 0, logN := e, r := 8, p := pick_opslimit megaops / (4 * 2 ^ e) / 8 } := by
  have hb : ¬ cpuBound maxmem megaops := fun hc => h ((cpuBound_iff _ _).mp hc)
  have hL : logNLoop (pick_maxN maxmem megaops) 1 = e := by
    apply logNLoop_eq_of _ _ _ he1 he
    · rcases hlo with h1 | h1
      · exact Or.inl h1
      · right
        rw [pick_maxN_mem _ _ hb, Nat.cast_one, div_one, le_div_iff₀ (by norm_num)]
        have : 2 ^ (e - 1) * 2 ≤ pick_memlimit maxmem / 1024 := by
          rw [Nat.mul_comm]; exact h1
        exact_mod_cast this
    · rw [pick_maxN_mem _ _ hb, Nat.cast_one, div_one, div_lt_iff₀ (by norm_num)]
      have : pick_memlimit maxmem / 1024 < 2 ^ e * 2 := by
        rw [Nat.mul_comm]; exact hhi
      exact_mod_cast this
  rw [pickparams_mem _ _ hb, hL]

/-- Evaluation of the CPU-bound branch from natural-number bounds on the exponent. -/
theorem pickparams_cpu_eval (maxmem megaops e : Nat)
    (h : pick_opslimit megaops < pick_memlimit maxmem / 32) (he1 : 1 ≤ e) (he : e ≤ 62)
    (hlo : 1 = e ∨ 64 * 2 ^ (e - 1) ≤ pick_opslimit megaops)
    (hhi : pick_opslimit megaops < 64 * 2 ^ e) :
    pickparams maxmem megaops = { rc := 0, logN := e, r := 8, p := 1 } := by
  have hb : cpuBound maxmem megaops := (cpuBound_iff _ _).mpr h
  have hL : logNLoop (pick_maxN maxmem megaops) 1 = e := by
    apply logNLoop_eq_of _ _ _ he1 he
    · rcases hlo with h1 | h1
      · exact Or.inl h1
      · right
        rw [pick_maxN_cpu _ _ hb, div_div, le_div_iff₀ (by norm_num)]
        have : 2 ^ (e - 1) * (32 * 2) ≤ pick_opslimit megaops := by
          rw [Nat.mul_comm]; exact h1
        exact_mod_cast this
    · rw [pick_maxN_cpu _ _ hb, div_div, div_lt_iff₀ (by norm_num)]
      have : pick_opslimit megaops < 2 ^ e * (32 * 2) := by
        rw [Nat.mul_comm]; exact hhi
      exact_mod_cast this
  rw [pickparams_cpu _ _ hb, hL]

/-- The parameters chosen for the default budgets of `init_parms`. -/
theorem pickparams_default : pickparams 1000 32 = { rc := 0, logN := 19, r := 8, p := 2 } := by
  rw [pickparams_mem_eval 1000 32 19 (by decide) (by decide) (by decide) (by decide)
    (by decide)]
  decide

theorem pickparams_4095_128 :
    pickparams 4095 128 = { rc := 0, logN := 21, r := 8, p := 2 } := by
  rw [pickparams_mem_eval 4095 128 21 (by decide) (by decide) (by decide) (by decide)
    (by decide)]
  decide

theorem pickparams_4096_128 :
    pickparams 4096 128 = { rc := 0, logN := 1, r := 8, p := 2097152 } := by
  rw [pickparams_mem_eval 4096 128 1 (by decide) (by decide) (by decide) (by decide)
    (by decide)]
  decide

theorem pickparams_logN (maxmem megaops : Nat) :
    (pickparams maxmem megaops).logN = logNLoop (pick_maxN maxmem megaops) 1 := by
  by_cases h : cpuBound maxmem megaops
  · rw [pickparams_cpu _ _ h]
  · rw [pickparams_mem _ _ h]

theorem pickparams_rc (maxmem megaops : Nat) : (pickparams maxmem megaops).rc = 0 := by
  by_cases h : cpuBound maxmem megaops
  · rw [pickparams_cpu _ _ h]
  · rw [pickparams_mem _ _ h]

theorem pickparams_r (maxmem megaops : Nat) : (pickparams maxmem megaops).r = 8 := by
  by_cases h : cpuBound maxmem megaops
  · rw [pickparams_cpu _ _ h]
  · rw [pickparams_mem _ _ h]

/-- Natural-number description of the exponent in the CPU-bound branch, where
`maxN = opslimit / 32`. -/
theorem logN_cpu (maxmem megaops : Nat) (h : cpuBound maxmem megaops) :
    1 ≤ (pickparams maxmem megaops).logN ∧ (pickparams maxmem megaops).logN ≤ 62 ∧
    pick_opslimit megaops < 64 * 2 ^ (pickparams maxmem megaops).logN ∧
    (1 < (pickparams maxmem megaops).logN →
      32 * 2 ^ (pickparams maxmem megaops).logN ≤ pick_opslimit megaops) := by
  rw [pickparams_logN, pick_maxN_cpu _ _ h]
  have := logNLoop_nat (pick_opslimit megaops) 32 (by norm_num) (pick_opslimit_lt _)
  simpa using this

/-- Natural-number description of the exponent in the memory-bound branch, where
`maxN = memlimit / 1024` in integer arithmetic. -/
theorem logN_mem (maxmem megaops : Nat) (h : ¬ cpuBound maxmem megaops) :
    1 ≤ (pickparams maxmem megaops).logN ∧ (pickparams maxmem megaops).logN ≤ 62 ∧
    pick_memlimit maxmem / 1024 < 2 * 2 ^ (pickparams maxmem megaops).logN ∧
    (1 < (pickparams maxmem megaops).logN →
      2 ^ (pickparams maxmem megaops).logN ≤ pick_memlimit maxmem / 1024) := by
  rw [pickparams_logN, pick_maxN_mem _ _ h]
  have := logNLoop_nat (pick_memlimit maxmem / 1024) 1 (by norm_num)
    (lt_of_le_of_lt (Nat.div_le_self _ _) (pick_memlimit_lt _))
  simpa using this

theorem pickparams_p_cpu (maxmem megaops : Nat) (h : cpuBound maxmem megaops) :
    (pickparams maxmem megaops).p = 1 := by
  rw [pickparams_cpu _ _ h]

theorem pickparams_p_mem (maxmem megaops : Nat) (h : ¬ cpuBound maxmem megaops) :
    (pickparams maxmem megaops).p =
      pick_opslimit megaops / (4 * 2 ^ (pickparams maxmem megaops).logN) / 8 := by
  rw [pickparams_logN, pickparams_mem _ _ h]

/-! ## Bounds on the chosen parameters -/

/-- In the memory-bound branch the CPU estimate `4 N r p` stays within `opslimit`. -/
theorem mem_branch_cpu_estimate (maxmem megaops : Nat) (h : ¬ cpuBound maxmem megaops) :
    4 * 2 ^ (pickparams maxmem megaops).logN * (pickparams maxmem megaops).r *
      (pickparams maxmem megaops).p ≤ pick_opslimit megaops := by
  rw [pickparams_r, pickparams_p_mem _ _ h]
  have h1 : 8 * (pick_opslimit megaops / (4 * 2 ^ (pickparams maxmem megaops).logN) / 8)
      ≤ pick_opslimit megaops / (4 * 2 ^ (pickparams maxmem megaops).logN) :=
    Nat.mul_div_le _ _
  have h2 : 4 * 2 ^ (pickparams maxmem megaops).logN *
      (pick_opslimit megaops / (4 * 2 ^ (pickparams maxmem megaops).logN))
      ≤ pick_opslimit megaops := Nat.mul_div_le _ _
  calc 4 * 2 ^ (pickparams maxmem megaops).logN * 8 *
        (pick_opslimit megaops / (4 * 2 ^ (pickparams maxmem megaops).logN) / 8)
      = 4 * 2 ^ (pickparams maxmem megaops).logN *
        (8 * (pick_opslimit megaops / (4 * 2 ^ (pickparams maxmem megaops).logN) / 8)) := by
        ring
    _ ≤ 4 * 2 ^ (pickparams maxmem megaops).logN *
        (pick_opslimit megaops / (4 * 2 ^ (pickparams maxmem megaops).logN)) :=
        Nat.mul_le_mul_left _ h1
    _ ≤ pick_opslimit megaops := h2

/-- C2 (as amended): for all positive 32-bit budgets the chosen parameters satisfy
`4 * 2 ^ logN * r * p ≤ megaops * 2 ^ 20`; the CPU limit of `pickparams` is
`MEGA * megaops` with `MEGA = 1024 * 1024`, not `megaops * 10 ^ 6`. -/
theorem pickparams_cpu_limit (maxmem megaops : Nat) (_hM : maxmem < 2 ^ 32)
    (_hC : megaops < 2 ^ 32) (_hMpos : 0 < maxmem) (hCpos : 0 < megaops) :
    4 * 2 ^ (pickparams maxmem megaops).logN * (pickparams maxmem megaops).r *
      (pickparams maxmem megaops).p ≤ megaops * 2 ^ 20 := by
  have ho := pick_opslimit_le megaops
  by_cases h : cpuBound maxmem megaops
  · obtain ⟨h1, _, _, h4⟩ := logN_cpu maxmem megaops h
    rw [pickparams_r, pickparams_p_cpu _ _ h]
    rcases Nat.eq_or_lt_of_le h1 with heq | hgt
    · rw [← heq]
      omega
    · have := h4 hgt
      omega
  · exact le_trans (mem_branch_cpu_estimate maxmem megaops h) ho

/-- C2, the amended bound at the default budgets. -/
theorem pickparams_cpu_limit_witness :
    4 * 2 ^ (pickparams 1000 32).logN * (pickparams 1000 32).r * (pickparams 1000 32).p
      ≤ 32 * 2 ^ 20 :=
  pickparams_cpu_limit 1000 32 (by decide) (by decide) (by decide) (by decide)

/-- C2 (as stated) fails at the default budgets `maxmem = 1000`, `megaops = 32`: the chosen
`logN = 19`, `r = 8`, `p = 2` give `4 * 2 ^ 19 * 8 * 2 = 33554432 > 32 * 10 ^ 6`. -/
theorem pickparams_cpu_limit_decimal_fails :
    ¬ (4 * 2 ^ (pickparams 1000 32).logN * (pickparams 1000 32).r * (pickparams 1000 32).p
      ≤ 32 * 10 ^ 6) := by
  rw [pickparams_default]
  decide

/-- C3: for every 32-bit memory budget `maxmem ≥ 1` and every 32-bit CPU budget, the chosen
parameters satisfy `128 * 2 ^ logN * r ≤ maxmem * 2 ^ 20`, in both branches. -/
theorem pickparams_memory_limit (maxmem megaops : Nat) (_hM : maxmem < 2 ^ 32)
    (_hC : megaops < 2 ^ 32) (hMpos : 1 ≤ maxmem) :
    128 * 2 ^ (pickparams maxmem megaops).logN * (pickparams maxmem megaops).r
      ≤ maxmem * 2 ^ 20 := by
  have hm := pick_memlimit_le maxmem
  rw [pickparams_r]
  by_cases h : cpuBound maxmem megaops
  · obtain ⟨h1, _, _, h4⟩ := logN_cpu maxmem megaops h
    have hb := (cpuBound_iff _ _).mp h
    rcases Nat.eq_or_lt_of_le h1 with heq | hgt
    · rw [← heq]
      omega
    · have := h4 hgt
      omega
  · obtain ⟨h1, _, _, h4⟩ := logN_mem maxmem megaops h
    rcases Nat.eq_or_lt_of_le h1 with heq | hgt
    · rw [← heq]
      omega
    · have := h4 hgt
      omega

/-- C3 at the default budgets, which take the memory-bound branch. -/
theorem pickparams_memory_limit_witness :
    128 * 2 ^ (pickparams 1000 32).logN * (pickparams 1000 32).r ≤ 1000 * 2 ^ 20 :=
  pickparams_memory_limit 1000 32 (by decide) (by decide) (by decide)

/-- C4: for every pair of 32-bit inputs, zero and wrapping values included, `pickparams`
returns `0` and stores `r = 8`, `1 ≤ logN ≤ 63` and `r * p < 2 ^ 30`. -/
theorem pickparams_invariant (maxmem megaops : Nat) (_hM : maxmem < 2 ^ 32)
    (_hC : megaops < 2 ^ 32) :
    (pickparams maxmem megaops).rc = 0 ∧ (pickparams maxmem megaops).r = 8 ∧
    1 ≤ (pickparams maxmem megaops).logN ∧ (pickparams maxmem megaops).logN ≤ 63 ∧
    (pickparams maxmem megaops).r * (pickparams maxmem megaops).p < 2 ^ 30 := by
  refine ⟨pickparams_rc _ _, pickparams_r _ _, ?_⟩
  rw [pickparams_r]
  by_cases h : cpuBound maxmem megaops
  · obtain ⟨h1, h2, _, _⟩ := logN_cpu maxmem megaops h
    rw [pickparams_p_cpu _ _ h]
    exact ⟨h1, by omega, by norm_num⟩
  · obtain ⟨h1, h2, _, _⟩ := logN_mem maxmem megaops h
    rw [pickparams_p_mem _ _ h]
    refine ⟨h1, by omega, ?_⟩
    have ho := pick_opslimit_lt megaops
    have hpos : 1 ≤ 2 ^ (pickparams maxmem megaops).logN := Nat.one_le_two_pow
    have h3 : pick_opslimit megaops / (4 * 2 ^ (pickparams maxmem megaops).logN)
        ≤ pick_opslimit megaops / 4 :=
      Nat.div_le_div_left (by omega) (by norm_num)
    omega

/-- C4 at budgets whose 32-bit products wrap to zero. -/
theorem pickparams_invariant_witness :
    (pickparams 4096 0).rc = 0 ∧ (pickparams 4096 0).r = 8 ∧
    1 ≤ (pickparams 4096 0).logN ∧ (pickparams 4096 0).logN ≤ 63 ∧
    (pickparams 4096 0).r * (pickparams 4096 0).p < 2 ^ 30 :=
  pickparams_invariant 4096 0 (by decide) (by decide)

/-! ## The validator -/

/-- The two resource checks of `checkparams` in natural-number arithmetic, for parameters that
pass its sanity checks and `r ≥ 1`; both limits are the 32-bit products the code computes. -/
theorem checkparams_in_range (maxmem megaops e r p : Nat) (he1 : 1 ≤ e) (he : e ≤ 63)
    (hrp : r * p < 2 ^ 30) (hr : 0 < r) :
    checkparams maxmem megaops (e : Int) r p =
      if (1000000 * maxmem % 2 ^ 32 / 2 ^ e) / r < 128 then some 9
      else if 0 < p ∧ 1000000 * megaops % 2 ^ 32 < 4 * (2 ^ e * (r * p)) then some 10
      else some 0 := by
  have hlog : ¬ ((e : Int) < 1 ∨ (e : Int) > 63) := by omega
  have hsan : ¬ (r * p ≥ 0x40000000) := by
    norm_num at hrp ⊢
    exact hrp
  have hr0 : ¬ (r = 0) := by omega
  have hmod : r * p % 2 ^ 32 = r * p := Nat.mod_eq_of_lt (by omega)
  unfold checkparams
  simp only [if_neg hlog, if_neg hsan, if_neg hr0, Int.toNat_ofNat, shl_one_eq e he, hmod]
  by_cases hmem : (1000000 * maxmem % 2 ^ 32 / 2 ^ e) / r < 128
  · rw [if_pos hmem, if_pos hmem]
  · rw [if_neg hmem, if_neg hmem]
    by_cases hp : p = 0
    · subst hp
      simp
    · have hppos : 0 < p := Nat.pos_of_ne_zero hp
      have hrppos : 0 < r * p := Nat.mul_pos hr hppos
      have hNpos : 0 < 2 ^ e := Nat.two_pow_pos e
      have hiff : (((1000000 * megaops % 2 ^ 32 : Nat) : ℚ) / ((2 ^ e : Nat) : ℚ)
          / ((r * p : Nat) : ℚ) < 4) ↔ 1000000 * megaops % 2 ^ 32 < 4 * (2 ^ e * (r * p)) := by
        have hpos : (0 : ℚ) < ((2 ^ e : Nat) : ℚ) * ((r * p : Nat) : ℚ) := by
          have h1 : (0 : ℚ) < ((2 ^ e : Nat) : ℚ) := by exact_mod_cast hNpos
          have h2 : (0 : ℚ) < ((r * p : Nat) : ℚ) := by exact_mod_cast hrppos
          exact mul_pos h1 h2
        rw [div_div, div_lt_iff₀ hpos]
        constructor
        · intro hq
          have : ((1000000 * megaops % 2 ^ 32 : Nat) : ℚ)
              < ((4 * (2 ^ e * (r * p)) : Nat) : ℚ) := by
            push_cast at hq ⊢
            linarith
          exact_mod_cast this
        · intro hn
          have : ((1000000 * megaops % 2 ^ 32 : Nat) : ℚ)
              < ((4 * (2 ^ e * (r * p)) : Nat) : ℚ) := by exact_mod_cast hn
          push_cast at this ⊢
          linarith
      by_cases hcpu : 1000000 * megaops % 2 ^ 32 < 4 * (2 ^ e * (r * p))
      · rw [if_pos ⟨Nat.pos_iff_ne_zero.mp hrppos, hiff.mpr hcpu⟩, if_pos ⟨hppos, hcpu⟩]
      · have hn1 : ¬ (0 < p ∧ 1000000 * megaops % 2 ^ 32 < 4 * (2 ^ e * (r * p))) :=
          fun hc => hcpu hc.2
        have hn2 : ¬ (r * p ≠ 0 ∧ ((1000000 * megaops % 2 ^ 32 : Nat) : ℚ)
            / ((2 ^ e : Nat) : ℚ) / ((r * p : Nat) : ℚ) < 4) :=
          fun hc => hcpu (hiff.mp hc.2)
        rw [if_neg hn2, if_neg hn1]

/-- C1, the failing input: at the default budgets `maxmem = 1000`, `megaops = 32` the
parameters that `pickparams` produces are `logN = 19`, `r = 8`, `p = 2`, and `checkparams`
returns `10` for them and the same budgets, not `0`. -/
theorem roundtrip_default_rejected :
    pickparams 1000 32 = { rc := 0, logN := 19, r := 8, p := 2 } ∧
    checkparams 1000 32 ((pickparams 1000 32).logN : Int) (pickparams 1000 32).r
      (pickparams 1000 32).p = some 10 := by
  refine ⟨pickparams_default, ?_⟩
  rw [pickparams_default]
  rw [checkparams_in_range 1000 32 19 8 2 (by decide) (by decide) (by decide) (by decide)]
  decide

/-! ## The work factor relative to its ceiling -/

theorem pickparams_logN_le_62 (maxmem megaops : Nat) :
    (pickparams maxmem megaops).logN ≤ 62 := by
  by_cases h : cpuBound maxmem megaops
  · exact (logN_cpu maxmem megaops h).2.1
  · exact (logN_mem maxmem megaops h).2.1

theorem not_cpuBound_default : ¬ cpuBound 1000 32 := by
  rw [cpuBound_iff]
  decide

theorem pick_maxN_default : pick_maxN 1000 32 = 1024000 := by
  rw [pick_maxN_mem _ _ not_cpuBound_default]
  have h : pick_memlimit 1000 / 1024 = 1024000 := by decide
  rw [h]
  norm_num

/-- C5 (as amended): for positive 32-bit budgets, whenever some `e` in `[1, 63]` has
`2 ^ e ≤ maxN / 2`, with `maxN` the ceiling of the branch taken, the exponent chosen by
`pickparams` is one more than the largest such `e`; so `N = 2 ^ logN` exceeds half the
ceiling and does not exceed the ceiling. -/
theorem pickparams_one_above_largest (maxmem megaops : Nat) (_hM : maxmem < 2 ^ 32)
    (_hC : megaops < 2 ^ 32) (_hMpos : 0 < maxmem) (_hCpos : 0 < megaops) (e : Nat)
    (he1 : 1 ≤ e) (_he63 : e ≤ 63) (hle : (2 : ℚ) ^ e ≤ pick_maxN maxmem megaops / 2)
    (hmax : ∀ e', 1 ≤ e' → e' ≤ 63 → (2 : ℚ) ^ e' ≤ pick_maxN maxmem megaops / 2 → e' ≤ e) :
    (pickparams maxmem megaops).logN = e + 1 ∧
    pick_maxN maxmem megaops / 2 < (2 : ℚ) ^ (pickparams maxmem megaops).logN ∧
    (2 : ℚ) ^ (pickparams maxmem megaops).logN ≤ pick_maxN maxmem megaops := by
  have h62 := pickparams_logN_le_62 maxmem megaops
  rw [pickparams_logN] at h62 ⊢
  have hex := logNLoop_exit (pick_maxN maxmem megaops) 1 (by norm_num) (by omega)
  have hlt : e < logNLoop (pick_maxN maxmem megaops) 1 := by
    by_contra hcon
    have hpow : (2 : ℚ) ^ logNLoop (pick_maxN maxmem megaops) 1 ≤ (2 : ℚ) ^ e :=
      pow_le_pow_right₀ (by norm_num) (by omega)
    linarith
  have hb := logNLoop_before (pick_maxN maxmem megaops) 1
    (logNLoop (pick_maxN maxmem megaops) 1 - 1) (by norm_num) (by omega) (by omega)
  have hpred := hmax (logNLoop (pick_maxN maxmem megaops) 1 - 1) (by omega) (by omega) hb
  have heq : logNLoop (pick_maxN maxmem megaops) 1 = e + 1 := by omega
  refine ⟨heq, hex, ?_⟩
  rw [heq, pow_succ]
  linarith

/-- C5, the amended statement at the default budgets: the ceiling is `1024000`, the largest
`e` with `2 ^ e ≤ 512000` is `18`, and the chosen exponent is `19`. -/
theorem pickparams_one_above_largest_witness :
    (pickparams 1000 32).logN = 18 + 1 ∧
    pick_maxN 1000 32 / 2 < (2 : ℚ) ^ (pickparams 1000 32).logN ∧
    (2 : ℚ) ^ (pickparams 1000 32).logN ≤ pick_maxN 1000 32 :=
  pickparams_one_above_largest 1000 32 (by decide) (by decide) (by decide) (by decide) 18
    (by decide) (by decide) (by rw [pick_maxN_default]; norm_num)
    (by
      intro e' _ _ h
      rw [pick_maxN_default] at h
      by_contra hcon
      have hpow : (2 : ℚ) ^ 19 ≤ (2 : ℚ) ^ e' := pow_le_pow_right₀ (by norm_num) (by omega)
      norm_num at h hpow
      linarith)

/-- C5 (as stated) fails at the default budgets `maxmem = 1000`, `megaops = 32`: the branch
is memory-bound with ceiling `1024000`, the exponent `18` is in `[1, 63]` and is the largest
with `2 ^ e ≤ ceiling / 2`, yet the chosen exponent is `19` and `2 ^ 19` exceeds half the
ceiling. -/
theorem headroom_fails_default :
    ¬ cpuBound 1000 32 ∧ pick_maxN 1000 32 = 1024000 ∧
    (2 : ℚ) ^ 18 ≤ pick_maxN 1000 32 / 2 ∧
    (∀ e', 1 ≤ e' → e' ≤ 63 → (2 : ℚ) ^ e' ≤ pick_maxN 1000 32 / 2 → e' ≤ 18) ∧
    (pickparams 1000 32).logN ≠ 18 ∧
    ¬ ((2 : ℚ) ^ (pickparams 1000 32).logN ≤ pick_maxN 1000 32 / 2) := by
  refine ⟨not_cpuBound_default, pick_maxN_default, ?_, ?_, ?_, ?_⟩
  · rw [pick_maxN_default]
    norm_num
  · intro e' _ _ h
    rw [pick_maxN_default] at h
    by_contra hcon
    have hpow : (2 : ℚ) ^ 19 ≤ (2 : ℚ) ^ e' := pow_le_pow_right₀ (by norm_num) (by omega)
    norm_num at h hpow
    linarith
  · rw [pickparams_default]
    decide
  · rw [pickparams_default, pick_maxN_default]
    norm_num

/-! ## Monotonicity and the 32-bit products -/

/-- A larger ceiling never gives a smaller exponent. -/
theorem logNLoop_mono (maxN1 maxN2 : ℚ) (s : Nat) (hs : s ≤ 63) (h : maxN1 ≤ maxN2) :
    logNLoop maxN1 s ≤ logNLoop maxN2 s := by
  by_contra hcon
  have hlt : logNLoop maxN2 s < logNLoop maxN1 s := by omega
  have hle1 := logNLoop_le maxN1 s hs
  have hex := logNLoop_exit maxN2 s hs (by omega)
  have hb := logNLoop_before maxN1 s (logNLoop maxN2 s) hs (logNLoop_ge maxN2 s hs) hlt
  linarith

theorem pick_memlimit_small (maxmem : Nat) (h : maxmem < 4096) :
    pick_memlimit maxmem = MEGA * maxmem := by
  unfold pick_memlimit MEGA
  exact Nat.mod_eq_of_lt (by omega)

theorem pick_opslimit_small (megaops : Nat) (h : megaops < 4096) :
    pick_opslimit megaops = MEGA * megaops := by
  unfold pick_opslimit MEGA
  exact Nat.mod_eq_of_lt (by omega)

/-- Below the 32-bit wraparound (budgets up to `4095`) the exponent is monotone in the
memory budget within the memory-bound branch and in the CPU budget within the CPU-bound
branch. -/
theorem logN_mono_below_wrap :
    (∀ megaops m1 m2 : Nat, m1 ≤ m2 → m2 < 4096 → ¬ cpuBound m1 megaops →
      ¬ cpuBound m2 megaops →
      (pickparams m1 megaops).logN ≤ (pickparams m2 megaops).logN) ∧
    (∀ maxmem c1 c2 : Nat, c1 ≤ c2 → c2 < 4096 → cpuBound maxmem c1 → cpuBound maxmem c2 →
      (pickparams maxmem c1).logN ≤ (pickparams maxmem c2).logN) := by
  constructor
  · intro megaops m1 m2 h12 h2 hb1 hb2
    rw [pickparams_logN, pickparams_logN]
    apply logNLoop_mono _ _ _ (by norm_num)
    rw [pick_maxN_mem _ _ hb1, pick_maxN_mem _ _ hb2, pick_memlimit_small m1 (by omega),
      pick_memlimit_small m2 h2]
    have hle : MEGA * m1 / 1024 ≤ MEGA * m2 / 1024 :=
      Nat.div_le_div_right (Nat.mul_le_mul_left _ h12)
    have hq : ((MEGA * m1 / 1024 : Nat) : ℚ) ≤ ((MEGA * m2 / 1024 : Nat) : ℚ) := by
      exact_mod_cast hle
    simpa using hq
  · intro maxmem c1 c2 h12 h2 hb1 hb2
    rw [pickparams_logN, pickparams_logN]
    apply logNLoop_mono _ _ _ (by norm_num)
    rw [pick_maxN_cpu _ _ hb1, pick_maxN_cpu _ _ hb2, pick_opslimit_small c1 (by omega),
      pick_opslimit_small c2 h2]
    have hle : MEGA * c1 ≤ MEGA * c2 := Nat.mul_le_mul_left _ h12
    have hq : ((MEGA * c1 : Nat) : ℚ) ≤ ((MEGA * c2 : Nat) : ℚ) := by exact_mod_cast hle
    exact div_le_div_of_nonneg_right hq (by norm_num)

/-- C6, the failing inputs: with `megaops = 128` both `maxmem = 4095` and `maxmem = 4096`
take the memory-bound branch, and the larger budget gets the smaller exponent (`21` against
`1`), because `MEGA * 4096` is `0` in 32-bit arithmetic; likewise with `maxmem = 4095` both
`megaops = 1` and `megaops = 4096` take the CPU-bound branch, with exponents `15` and `1`. -/
theorem monotonicity_fails_at_wrap :
    (¬ cpuBound 4095 128 ∧ ¬ cpuBound 4096 128 ∧
      (pickparams 4095 128).logN = 21 ∧ (pickparams 4096 128).logN = 1) ∧
    (cpuBound 4095 1 ∧ cpuBound 4095 4096 ∧
      (pickparams 4095 1).logN = 15 ∧ (pickparams 4095 4096).logN = 1) := by
  refine ⟨⟨?_, ?_, ?_, ?_⟩, ⟨?_, ?_, ?_, ?_⟩⟩
  · rw [cpuBound_iff]; decide
  · rw [cpuBound_iff]; decide
  · rw [pickparams_4095_128]
  · rw [pickparams_4096_128]
  · rw [cpuBound_iff]; decide
  · rw [cpuBound_iff]; decide
  · rw [pickparams_cpu_eval 4095 1 15 (by decide) (by decide) (by decide) (by decide)
      (by decide)]
  · rw [pickparams_cpu_eval 4095 4096 1 (by decide) (by decide) (by decide) (by decide)
      (by decide)]

/-! ## The key-derivation pipeline -/

theorem take_length_takeWhile (q : Nat → Bool) (s : List Nat) :
    s.take (s.takeWhile q).length = s.takeWhile q := by
  induction s with
  | nil => rfl
  | cons b t ih =>
    cases hq : q b
    · simp [List.takeWhile, hq]
    · simp [List.takeWhile, hq, ih]

theorem take_strlen (s : List Nat) :
    s.take (strlen s) = s.takeWhile (fun b => b ≠ 0) :=
  take_length_takeWhile _ s

theorem getsalt_rc (SHA256 : List Nat → List Nat) (site : List Nat) (verbose : Bool) :
    (getsalt SHA256 site verbose).1 = 0 := by
  unfold getsalt
  cases verbose <;> rfl

theorem getsalt_salt (SHA256 : List Nat → List Nat) (site : List Nat) (verbose : Bool) :
    (getsalt SHA256 site verbose).2.1 = SHA256 (site.takeWhile (fun b => b ≠ 0)) := by
  unfold getsalt sha256string
  rw [take_strlen]
  cases verbose <;> rfl

/-- The three results of `genpass` that do not concern standard output, in closed form. -/
theorem genpass_eq (SHA256 : List Nat → List Nat)
    (crypto_scrypt : ScryptArgs → Option (List Nat)) (sg : sg_parms_t) (args : ScryptArgs)
    (hargs : args =
      { passwd := sg.passwd, passwdlen := sg.passwdlen,
        salt := SHA256 (sg.site.takeWhile (fun b => b ≠ 0)), saltlen := 32,
        N := 2 ^ (pickparams sg.maxmem sg.megaops).logN,
        r := (pickparams sg.maxmem sg.megaops).r,
        p := (pickparams sg.maxmem sg.megaops).p, buflen := 64 }) :
    (genpass SHA256 crypto_scrypt sg).kdfCalls = [args] ∧
    (genpass SHA256 crypto_scrypt sg).dk = crypto_scrypt args ∧
    (genpass SHA256 crypto_scrypt sg).rc = if (crypto_scrypt args).isSome then 0 else 3 := by
  have hrc : ¬ ((pickparams sg.maxmem sg.megaops).rc ≠ 0) := by
    rw [pickparams_rc]
    simp
  have hgs : ¬ ((getsalt SHA256 sg.site sg.verbose).1 ≠ 0) := by
    rw [getsalt_rc]
    simp
  have hN : (1 <<< (pickparams sg.maxmem sg.megaops).logN) % 2 ^ 64
      = 2 ^ (pickparams sg.maxmem sg.megaops).logN :=
    shl_one_eq _ (by have := pickparams_logN_le_62 sg.maxmem sg.megaops; omega)
  unfold genpass
  simp only [if_neg hrc, if_neg hgs, hN, getsalt_salt]
  rw [← hargs]
  cases hk : crypto_scrypt args <;> simp

/-- C7: `genpass` calls the key-derivation function exactly once, with the passphrase and its
length, the salt `SHA256 (site up to its terminator)`, salt length `32`, `N = 2 ^ logN`, `r`,
`p` from `pickparams maxmem megaops` and output length `64`; it returns `0` with `dk` the
output of that call when the call succeeds and `3` when it fails, and no other code.  Two
requests that agree on passphrase, site and the two budgets give the same result, whatever
their `verbose`, `outputlength`, `numbers_only` and `keyfile`. -/
theorem genpass_pipeline (SHA256 : List Nat → List Nat)
    (crypto_scrypt : ScryptArgs → Option (List Nat)) (sg : sg_parms_t) :
    ∃ args : ScryptArgs,
      args =
        { passwd := sg.passwd, passwdlen := sg.passwdlen,
          salt := SHA256 (sg.site.takeWhile (fun b => b ≠ 0)), saltlen := 32,
          N := 2 ^ (pickparams sg.maxmem sg.megaops).logN,
          r := (pickparams sg.maxmem sg.megaops).r,
          p := (pickparams sg.maxmem sg.megaops).p, buflen := 64 } ∧
      (genpass SHA256 crypto_scrypt sg).kdfCalls = [args] ∧
      (∀ key, crypto_scrypt args = some key →
        (genpass SHA256 crypto_scrypt sg).rc = 0 ∧
        (genpass SHA256 crypto_scrypt sg).dk = some key) ∧
      (crypto_scrypt args = none → (genpass SHA256 crypto_scrypt sg).rc = 3) ∧
      ((genpass SHA256 crypto_scrypt sg).rc = 0 ∨ (genpass SHA256 crypto_scrypt sg).rc = 3) ∧
      ∀ sg2 : sg_parms_t, sg2.passwd = sg.passwd → sg2.passwdlen = sg.passwdlen →
        sg2.site = sg.site → sg2.maxmem = sg.maxmem → sg2.megaops = sg.megaops →
        (genpass SHA256 crypto_scrypt sg2).rc = (genpass SHA256 crypto_scrypt sg).rc ∧
        (genpass SHA256 crypto_scrypt sg2).dk = (genpass SHA256 crypto_scrypt sg).dk ∧
        (genpass SHA256 crypto_scrypt sg2).kdfCalls
          = (genpass SHA256 crypto_scrypt sg).kdfCalls := by
  refine ⟨_, rfl, ?_⟩
  obtain ⟨h1, h2, h3⟩ := genpass_eq SHA256 crypto_scrypt sg _ rfl
  refine ⟨h1, ?_, ?_, ?_, ?_⟩
  · intro key hkey
    rw [h3, h2, hkey]
    simp
  · intro hnone
    rw [h3, hnone]
    simp
  · rw [h3]
    split_ifs
    · exact Or.inl rfl
    · exact Or.inr rfl
  · intro sg2 e1 e2 e3 e4 e5
    obtain ⟨k1, k2, k3⟩ := genpass_eq SHA256 crypto_scrypt sg2 _ rfl
    rw [h1, h2, h3, k1, k2, k3, e1, e2, e3, e4, e5]
    exact ⟨rfl, rfl, rfl⟩

/-- C7 on a request with the default budgets: a key-derivation function that succeeds makes
`genpass` return `0` with its output in `dk`. -/
theorem genpass_pipeline_witness :
    (genpass (fun bs => bs) (fun a => some a.salt)
      { passwd := [112, 119], passwdlen := 2, site := [97, 46, 98], maxmem := 1000,
        megaops := 32, keyfile := none, numbers_only := 0, verbose := true,
        outputlength := 16 }).dk = some [97, 46, 98] := by
  obtain ⟨args, hargs, _, hsome, _⟩ := genpass_pipeline (fun bs => bs) (fun a => some a.salt)
    { passwd := [112, 119], passwdlen := 2, site := [97, 46, 98], maxmem := 1000,
      megaops := 32, keyfile := none, numbers_only := 0, verbose := true,
      outputlength := 16 }
  have hsalt : args.salt = [97, 46, 98] := by
    rw [hargs]
    simp [List.takeWhile]
  exact (hsome [97, 46, 98] (by rw [hsalt])).2

/-! ## Zero budgets -/

theorem pickparams_logN_zero_budget (maxmem megaops : Nat)
    (hz : maxmem = 0 ∨ megaops = 0) : (pickparams maxmem megaops).logN = 1 := by
  have hpos : 1 ≤ 2 ^ (pickparams maxmem megaops).logN := Nat.one_le_two_pow
  by_cases h : cpuBound maxmem megaops
  · obtain ⟨h1, _, _, h4⟩ := logN_cpu maxmem megaops h
    have hb := (cpuBound_iff _ _).mp h
    rcases hz with hM | hC
    · subst hM
      have h0 : pick_memlimit 0 = 0 := by decide
      rw [h0] at hb
      omega
    · subst hC
      have h0 : pick_opslimit 0 = 0 := by decide
      rw [h0] at h4
      rcases Nat.eq_or_lt_of_le h1 with heq | hgt
      · exact heq.symm
      · have := h4 hgt
        omega
  · obtain ⟨h1, _, _, h4⟩ := logN_mem maxmem megaops h
    have hb : ¬ pick_opslimit megaops < pick_memlimit maxmem / 32 :=
      fun hc => h ((cpuBound_iff _ _).mpr hc)
    have hsmall : pick_memlimit maxmem / 1024 = 0 := by
      rcases hz with hM | hC
      · subst hM
        decide
      · subst hC
        have h0 : pick_opslimit 0 = 0 := by decide
        rw [h0] at hb
        omega
    rcases Nat.eq_or_lt_of_le h1 with heq | hgt
    · exact heq.symm
    · have := h4 hgt
      omega

/-- C8 (as amended): for every request whose memory budget or CPU budget is zero,
`pickparams` still returns `0`, with `logN = 1` and `r = 8`, and `genpass` goes on to call
the key-derivation function once and returns `0` if that call succeeds and `3` if it fails;
the code has no invalid-budget error. -/
theorem zero_budget_accepted (SHA256 : List Nat → List Nat)
    (crypto_scrypt : ScryptArgs → Option (List Nat)) (sg : sg_parms_t)
    (_hM : sg.maxmem < 2 ^ 32) (_hC : sg.megaops < 2 ^ 32)
    (hz : sg.maxmem = 0 ∨ sg.megaops = 0) :
    (pickparams sg.maxmem sg.megaops).rc = 0 ∧
    (pickparams sg.maxmem sg.megaops).logN = 1 ∧
    (pickparams sg.maxmem sg.megaops).r = 8 ∧
    (genpass SHA256 crypto_scrypt sg).kdfCalls.length = 1 ∧
    (∀ args ∈ (genpass SHA256 crypto_scrypt sg).kdfCalls,
      ((crypto_scrypt args).isSome → (genpass SHA256 crypto_scrypt sg).rc = 0) ∧
      (crypto_scrypt args = none → (genpass SHA256 crypto_scrypt sg).rc = 3)) := by
  obtain ⟨h1, _, h3⟩ := genpass_eq SHA256 crypto_scrypt sg _ rfl
  refine ⟨pickparams_rc _ _, pickparams_logN_zero_budget _ _ hz, pickparams_r _ _, ?_, ?_⟩
  · rw [h1]
    rfl
  · intro args hmem
    rw [h1, List.mem_singleton] at hmem
    rw [h3, ← hmem]
    constructor
    · intro hs
      rw [if_pos hs]
    · intro hn
      rw [hn]
      rfl

/-- C8, the amended statement on a request with both budgets zero and a key-derivation
function that succeeds. -/
theorem zero_budget_accepted_witness :
    (pickparams 0 0).rc = 0 ∧ (pickparams 0 0).logN = 1 ∧ (pickparams 0 0).r = 8 ∧
    (genpass (fun bs => bs) (fun a => some a.salt)
      { passwd := [112], passwdlen := 1, site := [97], maxmem := 0, megaops := 0,
        keyfile := none, numbers_only := 0, verbose := false,
        outputlength := 16 }).kdfCalls.length = 1 :=
  have h := zero_budget_accepted (fun bs => bs) (fun a => some a.salt)
    { passwd := [112], passwdlen := 1, site := [97], maxmem := 0, megaops := 0,
      keyfile := none, numbers_only := 0, verbose := false, outputlength := 16 }
    (by decide) (by decide) (Or.inl rfl)
  ⟨h.1, h.2.1, h.2.2.1, h.2.2.2.1⟩

/-- C8 (as stated) fails for the request with `maxmem = 0` and `megaops = 32`: `pickparams`
returns `0`, and with a key-derivation function that succeeds `genpass` returns `0` too. -/
theorem zero_budget_not_rejected :
    ¬ ((pickparams 0 32).rc ≠ 0) ∧
    ¬ ((genpass (fun bs => bs) (fun a => some a.salt)
      { passwd := [112], passwdlen := 1, site := [97], maxmem := 0, megaops := 32,
        keyfile := none, numbers_only := 0, verbose := false,
        outputlength := 16 }).rc ≠ 0) := by
  constructor
  · rw [pickparams_rc]
    simp
  · rw [(genpass_eq (fun bs => bs) (fun a => some a.salt) _ _ rfl).2.2]
    simp

/-! ## The sanity checks and the resource checks of the validator -/

/-- C9: for 32-bit arguments with `r ≥ 1`, `checkparams` returns `7` exactly when `logN < 1`,
`logN > 63` or `r * p ≥ 2 ^ 30`; and when `logN` is out of range it returns `7` whatever the
other arguments are, `r = 0` included, before any memory or CPU check. -/
theorem checkparams_sanity (maxmem megaops : Nat) (logN : Int) (r p : Nat)
    (_hM : maxmem < 2 ^ 32) (_hC : megaops < 2 ^ 32) (_hr : r < 2 ^ 32) (_hp : p < 2 ^ 32) :
    (1 ≤ r → (checkparams maxmem megaops logN r p = some 7 ↔
      (logN < 1 ∨ 63 < logN ∨ 2 ^ 30 ≤ r * p))) ∧
    ((logN < 1 ∨ 63 < logN) → checkparams maxmem megaops logN r p = some 7) := by
  have hout : (logN < 1 ∨ 63 < logN) → checkparams maxmem megaops logN r p = some 7 := by
    intro h
    have h2 : logN < 1 ∨ logN > 63 := h
    unfold checkparams
    simp only [if_pos h2]
  refine ⟨?_, hout⟩
  intro hr
  by_cases hlog : logN < 1 ∨ 63 < logN
  · constructor
    · intro _
      rcases hlog with h | h
      · exact Or.inl h
      · exact Or.inr (Or.inl h)
    · intro _
      exact hout hlog
  · by_cases hsan : 2 ^ 30 ≤ r * p
    · constructor
      · intro _
        exact Or.inr (Or.inr hsan)
      · intro _
        have h2 : ¬ (logN < 1 ∨ logN > 63) := hlog
        have h3 : r * p ≥ 0x40000000 := by
          norm_num at hsan ⊢
          exact hsan
        unfold checkparams
        simp only [if_neg h2, if_pos h3]
    · have hcast : logN = ((logN.toNat : Nat) : Int) := by omega
      have hne : checkparams maxmem megaops logN r p ≠ some 7 := by
        rw [hcast, checkparams_in_range maxmem megaops logN.toNat r p (by omega) (by omega)
          (by omega) (by omega)]
        split_ifs <;> decide
      constructor
      · intro h
        exact absurd h hne
      · intro h
        rcases h with h | h | h
        · exact absurd (Or.inl h) hlog
        · exact absurd (Or.inr h) hlog
        · exact absurd h hsan

/-- C9 at the two rejected boundary exponents `0` and `64`, with arguments that fail the
memory check as well. -/
theorem checkparams_sanity_witness :
    checkparams 0 0 0 8 1 = some 7 ∧ checkparams 0 0 64 0 1 = some 7 ∧
    (checkparams 1000 32 19 8 (2 ^ 27) = some 7 ↔
      ((19 : Int) < 1 ∨ (63 : Int) < 19 ∨ 2 ^ 30 ≤ 8 * 2 ^ 27)) :=
  ⟨(checkparams_sanity 0 0 0 8 1 (by decide) (by decide) (by decide) (by decide)).2
      (Or.inl (by decide)),
    (checkparams_sanity 0 0 64 0 1 (by decide) (by decide) (by decide) (by decide)).2
      (Or.inr (by decide)),
    (checkparams_sanity 1000 32 19 8 (2 ^ 27) (by decide) (by decide) (by decide)
      (by decide)).1 (by decide)⟩

/-- For budgets up to `4294` the 32-bit products `1000000 * maxmem` and `1000000 * megaops`
do not wrap, and the resource checks are those of the exact products. -/
theorem checkparams_below_wrap (maxmem megaops e r p : Nat) (hM : maxmem ≤ 4294)
    (hC : megaops ≤ 4294) (he1 : 1 ≤ e) (he : e ≤ 63) (hrp : r * p < 2 ^ 30) (hr : 0 < r) :
    checkparams maxmem megaops (e : Int) r p =
      if (maxmem * 10 ^ 6 / 2 ^ e) / r < 128 then some 9
      else if 0 < p ∧ megaops * 10 ^ 6 < 4 * (2 ^ e * (r * p)) then some 10
      else some 0 := by
  have h1 : 1000000 * maxmem % 2 ^ 32 = maxmem * 10 ^ 6 := by
    rw [Nat.mod_eq_of_lt (by omega)]
    ring
  have h2 : 1000000 * megaops % 2 ^ 32 = megaops * 10 ^ 6 := by
    rw [Nat.mod_eq_of_lt (by omega)]
    ring
  rw [checkparams_in_range maxmem megaops e r p he1 he hrp hr, h1, h2]

/-- C10, the failing input: for `maxmem = 4295`, `megaops = 1000`, `logN = 10`, `r = 8`,
`p = 1` the code computes `memlimit = 1000000 * 4295` in 32 bits, which is `32704`, and
returns `9`; with `memLimit = 4295 * 10 ^ 6` neither check of the claim fails, so the claim
gives `0`. -/
theorem checkparams_wraps_budget :
    checkparams 4295 1000 10 8 1 = some 9 ∧
    ¬ ((4295 * 10 ^ 6 / 2 ^ 10) / 8 < 128) ∧
    ¬ ((1000 * 10 ^ 6 : ℚ) / 2 ^ 10 / (8 * 1) < 4) := by
  refine ⟨?_, by decide, by norm_num⟩
  have h := checkparams_in_range 4295 1000 10 8 1 (by decide) (by decide) (by decide)
    (by decide)
  rw [show ((10 : Nat) : Int) = 10 from rfl] at h
  rw [h]
  decide

/-! ## Hex encoding -/

theorem length_flatMap_fmt02x (l : List Nat) : (l.flatMap fmt02x).length = 2 * l.length := by
  induction l with
  | nil => rfl
  | cons b t ih =>
    rw [List.flatMap_cons, List.length_append, ih, List.length_cons]
    simp only [fmt02x, List.length_cons, List.length_nil]
    omega

theorem map_getD_range (l : List Nat) :
    (List.range l.length).map (fun i => l.getD i 0) = l := by
  apply List.ext_getElem
  · simp
  · intro i h1 h2
    simp only [List.getElem_map, List.getElem_range]
    exact List.getD_eq_getElem l 0 h2

/-- The buffer after the first `k` turns of the loop of `bintohex`: nothing for `k = 0`, and
else the digits of the first `k` bytes and a terminator. -/
theorem bintohex_loop (data : List Nat) (k : Nat) :
    ((List.range k).foldl
      (fun out i => out.take (2 * i) ++ fmt02x (data.getD i 0) ++ [Char.ofNat 0]) []).take
        (2 * k)
      = ((List.range k).map (fun i => data.getD i 0)).flatMap fmt02x := by
  induction k with
  | zero => simp
  | succ k ih =>
    rw [List.range_succ, List.foldl_append, List.foldl_cons, List.foldl_nil, ih,
      List.map_append, List.flatMap_append, List.map_singleton, List.flatMap_singleton,
      List.append_assoc]
    rw [← List.append_assoc]
    apply List.take_left'
    rw [List.length_append, length_flatMap_fmt02x, List.length_map, List.length_range]
    simp only [fmt02x, List.length_cons, List.length_nil]
    omega

/-- The buffer that `bintohex` leaves for a whole byte sequence: the two digits of each byte
in turn, then the terminator. -/
theorem bintohex_eq (data : List Nat) :
    bintohex data.length data = (0, data.flatMap fmt02x ++ [Char.ofNat 0]) := by
  unfold bintohex
  simp only []
  rw [bintohex_loop, map_getD_range]

theorem getElem?_flatMap_fmt02x (l : List Nat) :
    ∀ (i : Nat) (hi : i < l.length),
      (l.flatMap fmt02x)[2 * i]? = some (hexdigit (l[i] / 16)) ∧
      (l.flatMap fmt02x)[2 * i + 1]? = some (hexdigit (l[i] % 16)) := by
  induction l with
  | nil =>
    intro i hi
    simp at hi
  | cons b t ih =>
    intro i hi
    cases i with
    | zero => simp [List.flatMap_cons, fmt02x]
    | succ j =>
      have hj : j < t.length := by simpa using hi
      obtain ⟨h1, h2⟩ := ih j hj
      have e1 : 2 * (j + 1) = (2 * j) + 2 := by ring
      have e2 : 2 * (j + 1) + 1 = (2 * j + 1) + 2 := by ring
      rw [List.flatMap_cons]
      constructor
      · rw [e1, List.getElem?_append_right (by simp [fmt02x])]
        simpa [fmt02x] using h1
      · rw [e2, List.getElem?_append_right (by simp [fmt02x])]
        simpa [fmt02x] using h2

theorem hexdigit_table (d : Nat) (hd : d < 16) :
    "0123456789abcdef".toList[d]? = some (hexdigit d) := by
  interval_cases d <;> decide

/-- C12: for every byte sequence `data` of length `n`, `bintohex` returns `0` and stores
exactly `2 * n` characters followed by a terminator; the characters `2 * i` and `2 * i + 1`
are the digits of the high and the low nibble of `data[i]`, taken from `0123456789abcdef`,
with nothing between the bytes. -/
theorem bintohex_hex (data : List Nat) (hbyte : ∀ b ∈ data, b < 256) :
    (bintohex data.length data).1 = 0 ∧
    (bintohex data.length data).2 = data.flatMap fmt02x ++ [Char.ofNat 0] ∧
    (bintohex data.length data).2.length = 2 * data.length + 1 ∧
    (bintohex data.length data).2[2 * data.length]? = some (Char.ofNat 0) ∧
    ∀ (i : Nat) (hi : i < data.length),
      (bintohex data.length data).2[2 * i]? = "0123456789abcdef".toList[data[i] / 16]? ∧
      (bintohex data.length data).2[2 * i + 1]? = "0123456789abcdef".toList[data[i] % 16]? ∧
      data[i] / 16 < 16 ∧ data[i] % 16 < 16 := by
  rw [bintohex_eq]
  have hlen := length_flatMap_fmt02x data
  refine ⟨rfl, rfl, ?_, ?_, ?_⟩
  · simp only [List.length_append, hlen, List.length_cons, List.length_nil]
  · rw [List.getElem?_append_right (by omega), hlen]
    simp
  · intro i hi
    have hb : data[i] < 256 := hbyte _ (List.getElem_mem hi)
    have h1 : data[i] / 16 < 16 := by omega
    have h2 : data[i] % 16 < 16 := by omega
    obtain ⟨g1, g2⟩ := getElem?_flatMap_fmt02x data i hi
    refine ⟨?_, ?_, h1, h2⟩
    · simp only []
      rw [List.getElem?_append_left (by omega), g1, hexdigit_table _ h1]
    · simp only []
      rw [List.getElem?_append_left (by omega), g2, hexdigit_table _ h2]

/-- C12 on the SHA-256 digest of `"abc"`: its 32 bytes are encoded as the 64 characters
`ba7816bf8f01cfea414140de5dae2223b00361a396177a9cb410ff61f20015ad` and a terminator. -/
theorem bintohex_hex_witness :
    (bintohex 32
      [0xba, 0x78, 0x16, 0xbf, 0x8f, 0x01, 0xcf, 0xea, 0x41, 0x41, 0x40, 0xde, 0x5d, 0xae,
       0x22, 0x23, 0xb0, 0x03, 0x61, 0xa3, 0x96, 0x17, 0x7a, 0x9c, 0xb4, 0x10, 0xff, 0x61,
       0xf2, 0x00, 0x15, 0xad]).2
      = "ba7816bf8f01cfea414140de5dae2223b00361a396177a9cb410ff61f20015ad".toList
        ++ [Char.ofNat 0] :=
  (bintohex_hex
    [0xba, 0x78, 0x16, 0xbf, 0x8f, 0x01, 0xcf, 0xea, 0x41, 0x41, 0x40, 0xde, 0x5d, 0xae,
     0x22, 0x23, 0xb0, 0x03, 0x61, 0xa3, 0x96, 0x17, 0x7a, 0x9c, 0xb4, 0x10, 0xff, 0x61,
     0xf2, 0x00, 0x15, 0xad] (by decide)).2.1.trans (by decide)

/-! ## The parallelism -/

theorem pickparams_4097_128 :
    pickparams 4097 128 = { rc := 0, logN := 10, r := 8, p := 4096 } := by
  rw [pickparams_mem_eval 4097 128 10 (by decide) (by decide) (by decide) (by decide)
    (by decide)]
  decide

/-- Without wraparound the test of `pickparams` compares `megaops * 2 ^ 20` with
`maxmem * 2 ^ 20 / 32`. -/
theorem cpuBound_below_wrap (maxmem megaops : Nat) (hM : maxmem < 4096)
    (hC : megaops < 4096) :
    cpuBound maxmem megaops ↔
      ((megaops * 2 ^ 20 : Nat) : ℚ) < ((maxmem * 2 ^ 20 : Nat) : ℚ) / 32 := by
  rw [cpuBound_iff, pick_memlimit_small _ hM, pick_opslimit_small _ hC,
    lt_div_iff₀ (by norm_num)]
  unfold MEGA
  constructor
  · intro h
    have h2 : megaops * 2 ^ 20 * 32 < maxmem * 2 ^ 20 := by omega
    exact_mod_cast h2
  · intro h
    have h2 : megaops * 2 ^ 20 * 32 < maxmem * 2 ^ 20 := by exact_mod_cast h
    omega

/-- The parallelism of the memory-bound branch as the floor of the clamped quotient. -/
theorem pickparams_p_mem_floor (maxmem megaops : Nat) (h : ¬ cpuBound maxmem megaops) :
    (pickparams maxmem megaops).p =
      ⌊min ((pick_opslimit megaops : ℚ) / 4 / (2 : ℚ) ^ (pickparams maxmem megaops).logN)
        (2 ^ 30 - 1)⌋₊ / (pickparams maxmem megaops).r := by
  have h1 := (logN_mem maxmem megaops h).1
  have ho := pick_opslimit_lt megaops
  have hq : (pick_opslimit megaops : ℚ) / 4 / (2 : ℚ) ^ (pickparams maxmem megaops).logN
      = (pick_opslimit megaops : ℚ) / ((4 * 2 ^ (pickparams maxmem megaops).logN : Nat) : ℚ) := by
    rw [div_div]
    push_cast
    rfl
  have htwo : 2 ^ 1 ≤ 2 ^ (pickparams maxmem megaops).logN :=
    Nat.pow_le_pow_right (by norm_num) h1
  have hmin : (pick_opslimit megaops : ℚ) /
      ((4 * 2 ^ (pickparams maxmem megaops).logN : Nat) : ℚ) ≤ 2 ^ 30 - 1 := by
    rw [div_le_iff₀ (by positivity)]
    have h3 : pick_opslimit megaops
        ≤ (2 ^ 30 - 1) * (4 * 2 ^ (pickparams maxmem megaops).logN) := by
      have h4 : (2 ^ 30 - 1) * (4 * 2 ^ 1)
          ≤ (2 ^ 30 - 1) * (4 * 2 ^ (pickparams maxmem megaops).logN) :=
        Nat.mul_le_mul_left _ (Nat.mul_le_mul_left _ htwo)
      omega
    have h5 : ((pick_opslimit megaops : Nat) : ℚ)
        ≤ (((2 ^ 30 - 1) * (4 * 2 ^ (pickparams maxmem megaops).logN) : Nat) : ℚ) := by
      exact_mod_cast h3
    have h6 : (((2 ^ 30 - 1 : Nat)) : ℚ) = 2 ^ 30 - 1 := by norm_num
    rw [Nat.cast_mul, h6] at h5
    exact h5
  rw [hq, min_eq_left hmin, Nat.floor_div_eq_div, pickparams_r]
  exact pickparams_p_mem maxmem megaops h

/-- C13 (as amended): for budgets up to `4095`, where the 32-bit products do not wrap, with
`opsLimit = megaops * 2 ^ 20` and `memLimit = maxmem * 2 ^ 20`, `pickparams` sets `p = 1`
when `opsLimit < memLimit / 32`, and otherwise
`p = floor (min (opsLimit / 4 / N) (2 ^ 30 - 1)) div r` with `N = 2 ^ logN`. -/
theorem pickparams_parallelism (maxmem megaops : Nat) (hM : maxmem < 4096)
    (hC : megaops < 4096) :
    (((megaops * 2 ^ 20 : Nat) : ℚ) < ((maxmem * 2 ^ 20 : Nat) : ℚ) / 32 →
      (pickparams maxmem megaops).p = 1) ∧
    (¬ (((megaops * 2 ^ 20 : Nat) : ℚ) < ((maxmem * 2 ^ 20 : Nat) : ℚ) / 32) →
      (pickparams maxmem megaops).p =
        ⌊min (((megaops * 2 ^ 20 : Nat) : ℚ) / 4 / (2 : ℚ) ^ (pickparams maxmem megaops).logN)
          (2 ^ 30 - 1)⌋₊ / (pickparams maxmem megaops).r) := by
  have hb := cpuBound_below_wrap maxmem megaops hM hC
  have ho : pick_opslimit megaops = megaops * 2 ^ 20 := by
    rw [pick_opslimit_small _ hC]
    unfold MEGA
    ring
  constructor
  · intro h
    exact pickparams_p_cpu _ _ (hb.mpr h)
  · intro h
    have hn : ¬ cpuBound maxmem megaops := fun hc => h (hb.mp hc)
    rw [← ho]
    exact pickparams_p_mem_floor maxmem megaops hn

/-- C13, the amended statement at the default budgets: the branch is memory-bound and
`p = floor (min (2 ^ 25 / 4 / 2 ^ 19) (2 ^ 30 - 1)) div 8`. -/
theorem pickparams_parallelism_witness :
    (pickparams 1000 32).p =
      ⌊min (((32 * 2 ^ 20 : Nat) : ℚ) / 4 / (2 : ℚ) ^ (pickparams 1000 32).logN)
        (2 ^ 30 - 1)⌋₊ / (pickparams 1000 32).r :=
  (pickparams_parallelism 1000 32 (by decide) (by decide)).2 (by norm_num)

/-- C13 (as stated) fails.  At the default budgets `maxmem = 1000`, `megaops = 32` the test
`32 * 10 ^ 6 < 1000 * 2 ^ 20 / 32` of the claim holds, yet `p = 2`, because the code takes
`opsLimit = 32 * 2 ^ 20`.  At `maxmem = 4097`, `megaops = 128` the test holds for
`opsLimit = 128 * 10 ^ 6` and for `opsLimit = 128 * 2 ^ 20`, yet `p = 4096`, because
`MEGA * 4097` is `2 ^ 20` in 32-bit arithmetic. -/
theorem parallelism_claim_fails :
    ((32 * 10 ^ 6 : ℚ) < (1000 * 2 ^ 20 : ℚ) / 32 ∧ (pickparams 1000 32).p ≠ 1) ∧
    ((128 * 10 ^ 6 : ℚ) < (4097 * 2 ^ 20 : ℚ) / 32 ∧
      (128 * 2 ^ 20 : ℚ) < (4097 * 2 ^ 20 : ℚ) / 32 ∧ (pickparams 4097 128).p ≠ 1) := by
  refine ⟨⟨by norm_num, ?_⟩, by norm_num, by norm_num, ?_⟩
  · rw [pickparams_default]
    decide
  · rw [pickparams_4097_128]
    decide

/-- The formula of the memory-bound branch can itself give `1`: at `maxmem = 64`,
`megaops = 2` the two sides of the test are equal, the branch is memory-bound and `p = 1`. -/
theorem parallelism_one_in_memory_branch :
    ¬ cpuBound 64 2 ∧ (pickparams 64 2).p = 1 := by
  constructor
  · rw [cpuBound_iff]
    decide
  · rw [pickparams_mem_eval 64 2 16 (by decide) (by decide) (by decide) (by decide)
      (by decide)]
    decide

/-! ## The exponent search, as specified -/

/-- C14: for every ceiling `maxN ≥ 0` the search, started at `1`, ends with the least `e` in
`[1, 62]` such that `2 ^ e > maxN / 2`, or with `63` when there is none; hence an exponent in
`[2, 62]` has `maxN / 2 < 2 ^ logN ≤ maxN`.  Both branches of `pickparams` store the result of
this search for their ceiling. -/
theorem exponent_search (maxN : ℚ) (_h0 : 0 ≤ maxN) :
    (1 ≤ logNLoop maxN 1 ∧ logNLoop maxN 1 ≤ 63) ∧
    (∀ e, 1 ≤ e → e ≤ 62 → maxN / 2 < (2 : ℚ) ^ e →
      (∀ j, 1 ≤ j → j < e → ¬ (maxN / 2 < (2 : ℚ) ^ j)) → logNLoop maxN 1 = e) ∧
    ((∀ e, 1 ≤ e → e ≤ 62 → ¬ (maxN / 2 < (2 : ℚ) ^ e)) → logNLoop maxN 1 = 63) ∧
    (2 ≤ logNLoop maxN 1 → logNLoop maxN 1 ≤ 62 →
      maxN / 2 < (2 : ℚ) ^ logNLoop maxN 1 ∧ (2 : ℚ) ^ logNLoop maxN 1 ≤ maxN) ∧
    (∀ maxmem megaops : Nat,
      (pickparams maxmem megaops).logN = logNLoop (pick_maxN maxmem megaops) 1) := by
  have hge := logNLoop_ge maxN 1 (by norm_num)
  have hle := logNLoop_le maxN 1 (by norm_num)
  refine ⟨⟨hge, hle⟩, ?_, ?_, ?_, pickparams_logN⟩
  · intro e he1 he62 hgt hleast
    rcases Nat.lt_trichotomy (logNLoop maxN 1) e with hlt | heq | hgt2
    · exfalso
      exact hleast _ hge hlt (logNLoop_exit maxN 1 (by norm_num) (by omega))
    · exact heq
    · exfalso
      have := logNLoop_before maxN 1 e (by norm_num) he1 hgt2
      linarith
  · intro hnone
    by_contra hne
    have hlt : logNLoop maxN 1 < 63 := by omega
    exact hnone _ hge (by omega) (logNLoop_exit maxN 1 (by norm_num) hlt)
  · intro h2 h62
    have hex := logNLoop_exit maxN 1 (by norm_num) (by omega)
    have hb := logNLoop_before maxN 1 (logNLoop maxN 1 - 1) (by norm_num) (by omega)
      (by omega)
    refine ⟨hex, ?_⟩
    have hp : (2 : ℚ) ^ logNLoop maxN 1 = (2 : ℚ) ^ (logNLoop maxN 1 - 1) * 2 := by
      rw [← pow_succ]
      congr 1
      omega
    rw [hp]
    linarith

/-- C14 for the ceiling `1024000` of the default budgets: the exponent is `19`. -/
theorem exponent_search_witness : logNLoop 1024000 1 = 19 :=
  (exponent_search 1024000 (by norm_num)).2.1 19 (by decide) (by decide) (by norm_num)
    (by
      intro j _ hj
      have hpow : (2 : ℚ) ^ j ≤ (2 : ℚ) ^ 18 := pow_le_pow_right₀ (by norm_num) (by omega)
      norm_num at hpow ⊢
      linarith)

/-! ## The limits and the 32-bit products -/

/-- C15: for every 32-bit `maxmem` and every `megaops` in `1 .. 4095` the chosen parameters
satisfy `4 * 2 ^ logN * r * p ≤ opslimit`, where `opslimit = 2 ^ 20 * megaops` is the value
that the code computes. -/
theorem pickparams_cpu_limit_documented (maxmem megaops : Nat) (_hM : maxmem < 2 ^ 32)
    (hC1 : 1 ≤ megaops) (hC2 : megaops ≤ 4095) :
    pick_opslimit megaops = 2 ^ 20 * megaops ∧
    4 * 2 ^ (pickparams maxmem megaops).logN * (pickparams maxmem megaops).r *
      (pickparams maxmem megaops).p ≤ pick_opslimit megaops := by
  have ho : pick_opslimit megaops = 2 ^ 20 * megaops := by
    rw [pick_opslimit_small _ (by omega)]
    rfl
  refine ⟨ho, ?_⟩
  by_cases h : cpuBound maxmem megaops
  · obtain ⟨h1, _, _, h4⟩ := logN_cpu maxmem megaops h
    rw [pickparams_r, pickparams_p_cpu _ _ h]
    rcases Nat.eq_or_lt_of_le h1 with heq | hgt
    · rw [← heq]
      omega
    · have := h4 hgt
      omega
  · exact mem_branch_cpu_estimate maxmem megaops h

/-- C15 at the default budgets. -/
theorem pickparams_cpu_limit_documented_witness :
    pick_opslimit 32 = 2 ^ 20 * 32 ∧
    4 * 2 ^ (pickparams 1000 32).logN * (pickparams 1000 32).r * (pickparams 1000 32).p
      ≤ pick_opslimit 32 :=
  pickparams_cpu_limit_documented 1000 32 (by decide) (by decide) (by decide)

theorem pick_memlimit_mod (maxmem : Nat) :
    pick_memlimit maxmem = pick_memlimit (maxmem % 4096) := by
  unfold pick_memlimit MEGA
  omega

theorem pick_opslimit_mod (megaops : Nat) :
    pick_opslimit megaops = pick_opslimit (megaops % 4096) := by
  unfold pick_opslimit MEGA
  omega

/-- The result of `pickparams` is determined by the two 32-bit products. -/
theorem pickparams_congr (m1 c1 m2 c2 : Nat) (hm : pick_memlimit m1 = pick_memlimit m2)
    (hc : pick_opslimit c1 = pick_opslimit c2) : pickparams m1 c1 = pickparams m2 c2 := by
  unfold pickparams
  rw [hm, hc]

/-- C16: for all 32-bit budgets `pickparams maxmem megaops` is
`pickparams (maxmem mod 4096) (megaops mod 4096)`; in particular a memory budget of `4096`
selects the parameters of a memory budget of `0`, with `logN = 1`. -/
theorem pickparams_mod_4096 (maxmem megaops : Nat) (_hM : maxmem < 2 ^ 32)
    (_hC : megaops < 2 ^ 32) :
    pickparams maxmem megaops = pickparams (maxmem % 4096) (megaops % 4096) ∧
    pickparams 4096 megaops = pickparams 0 megaops ∧
    (pickparams 4096 megaops).logN = 1 := by
  refine ⟨pickparams_congr _ _ _ _ (pick_memlimit_mod _) (pick_opslimit_mod _), ?_, ?_⟩
  · exact pickparams_congr _ _ _ _ (by decide) rfl
  · rw [pickparams_congr 4096 megaops 0 megaops (by decide) rfl]
    exact pickparams_logN_zero_budget 0 megaops (Or.inl rfl)

/-- C16 at `maxmem = 4096 + 1000`, `megaops = 4096 + 32`: the parameters of the default
budgets. -/
theorem pickparams_mod_4096_witness :
    pickparams 5096 4128 = pickparams (5096 % 4096) (4128 % 4096) :=
  (pickparams_mod_4096 5096 4128 (by decide) (by decide)).1

theorem pick_memlimit_eq_zero (maxmem : Nat) :
    pick_memlimit maxmem = 0 ↔ maxmem % 4096 = 0 := by
  unfold pick_memlimit MEGA
  omega

theorem pick_opslimit_eq_zero (megaops : Nat) :
    pick_opslimit megaops = 0 ↔ megaops % 4096 = 0 := by
  unfold pick_opslimit MEGA
  omega

theorem pick_memlimit_multiple (maxmem : Nat) : pick_memlimit maxmem % 2 ^ 20 = 0 := by
  unfold pick_memlimit MEGA
  omega

theorem pick_opslimit_multiple (megaops : Nat) : pick_opslimit megaops % 2 ^ 20 = 0 := by
  unfold pick_opslimit MEGA
  omega

/-- The parallelism is zero exactly when both 32-bit products are zero. -/
theorem pickparams_p_eq_zero (maxmem megaops : Nat) :
    (pickparams maxmem megaops).p = 0 ↔
      (pick_memlimit maxmem = 0 ∧ pick_opslimit megaops = 0) := by
  have hmm := pick_memlimit_multiple maxmem
  have hom := pick_opslimit_multiple megaops
  by_cases h : cpuBound maxmem megaops
  · have hb := (cpuBound_iff _ _).mp h
    rw [pickparams_p_cpu _ _ h]
    constructor
    · intro h1
      omega
    · intro h0
      omega
  · have hb : ¬ pick_opslimit megaops < pick_memlimit maxmem / 32 :=
      fun hc => h ((cpuBound_iff _ _).mpr hc)
    obtain ⟨h1, _, _, h4⟩ := logN_mem maxmem megaops h
    have hpos : 0 < 4 * 2 ^ (pickparams maxmem megaops).logN :=
      Nat.mul_pos (by norm_num) (Nat.two_pow_pos _)
    rw [pickparams_p_mem _ _ h]
    constructor
    · intro hp
      have hlt : pick_opslimit megaops / (4 * 2 ^ (pickparams maxmem megaops).logN) < 8 := by
        omega
      rw [Nat.div_lt_iff_lt_mul hpos] at hlt
      rcases Nat.eq_or_lt_of_le h1 with heq | hgt
      · rw [← heq] at hlt
        omega
      · have := h4 hgt
        omega
    · intro h0
      rw [h0.2]
      simp

/-- C17: for all 32-bit budgets `pickparams` stores `p = 0` exactly when `maxmem` and
`megaops` are both multiples of `4096`, zero included; hence `p ≥ 1` for all budgets in
`1 .. 4095`. -/
theorem pickparams_p_zero_iff (maxmem megaops : Nat) (_hM : maxmem < 2 ^ 32)
    (_hC : megaops < 2 ^ 32) :
    ((pickparams maxmem megaops).p = 0 ↔ (maxmem % 4096 = 0 ∧ megaops % 4096 = 0)) ∧
    (1 ≤ maxmem → maxmem ≤ 4095 → 1 ≤ megaops → megaops ≤ 4095 →
      1 ≤ (pickparams maxmem megaops).p) := by
  have hiff : (pickparams maxmem megaops).p = 0 ↔
      (maxmem % 4096 = 0 ∧ megaops % 4096 = 0) := by
    rw [pickparams_p_eq_zero, pick_memlimit_eq_zero, pick_opslimit_eq_zero]
  refine ⟨hiff, ?_⟩
  intro h1 h2 _ _
  by_contra hcon
  have hp : (pickparams maxmem megaops).p = 0 := by omega
  have := (hiff.mp hp).1
  omega

/-- C17 at `maxmem = 8192`, `megaops = 4096`, both multiples of `4096`: `p = 0`. -/
theorem pickparams_p_zero_iff_witness : (pickparams 8192 4096).p = 0 :=
  (pickparams_p_zero_iff 8192 4096 (by decide) (by decide)).1.mpr ⟨by decide, by decide⟩

/-- C18: for every pair of 32-bit budgets `pickparams` chooses `1 ≤ logN ≤ 21`, so the search
never reaches the boundary exponent `63`; the maximum `21` is attained at `maxmem = 4095`,
`megaops = 128`. -/
theorem pickparams_logN_le_21 (maxmem megaops : Nat) (_hM : maxmem < 2 ^ 32)
    (_hC : megaops < 2 ^ 32) :
    1 ≤ (pickparams maxmem megaops).logN ∧ (pickparams maxmem megaops).logN ≤ 21 ∧
    (pickparams 4095 128).logN = 21 := by
  have hm := pick_memlimit_lt maxmem
  have hbig : 22 ≤ (pickparams maxmem megaops).logN →
      2 ^ 22 ≤ 2 ^ (pickparams maxmem megaops).logN :=
    fun h => Nat.pow_le_pow_right (by norm_num) h
  refine ⟨?_, ?_, by rw [pickparams_4095_128]⟩
  · by_cases h : cpuBound maxmem megaops
    · exact (logN_cpu maxmem megaops h).1
    · exact (logN_mem maxmem megaops h).1
  · by_contra hcon
    have h22 := hbig (by omega)
    by_cases h : cpuBound maxmem megaops
    · have hb := (cpuBound_iff _ _).mp h
      have := (logN_cpu maxmem megaops h).2.2.2 (by omega)
      omega
    · have := (logN_mem maxmem megaops h).2.2.2 (by omega)
      omega

/-- C18 at the largest 32-bit budgets. -/
theorem pickparams_logN_le_21_witness :
    1 ≤ (pickparams 4294967295 4294967295).logN ∧
    (pickparams 4294967295 4294967295).logN ≤ 21 :=
  have h := pickparams_logN_le_21 4294967295 4294967295 (by decide) (by decide)
  ⟨h.1, h.2.1⟩

/-! ## The command line program: output length and error reporting -/

/-- A run of `main` with a well-formed command line, a passphrase and a readable key file (if
any) is the run of its last part on the `sg_parms` filled in so far. -/
theorem main_reach (w : World) (argc : Int) (opts : List Opt) (site : List Nat) (st : Parsed)
    (passwd passwd2 : List Nat) (passwdlen2 : Nat) (hargc : 1 ≤ argc)
    (hparse : parse_opts w init_parms opts = Except.ok st)
    (hpass : get_passwd w st = some passwd)
    (hkey : main_keyfile w st.keyfile passwd (strlen passwd) = Except.ok (passwd2, passwdlen2)) :
    main w argc opts [site] =
      main_derive w
        { passwd := passwd2, passwdlen := passwdlen2, site := site, maxmem := st.maxmem,
          megaops := st.megaops, keyfile := st.keyfile, numbers_only := st.numbers_only,
          verbose := st.verbose, outputlength := st.outputlength } := by
  have h : ¬ argc < 1 := by omega
  unfold main
  rw [if_neg h]
  simp only [hparse, hpass, hkey]

/-- The events before the test of the output length contain no call of the encoder. -/
theorem main_diag_no_encode (w : World) (sg : sg_parms_t) (a b : Nat) (c : List Nat) :
    Event.encode a b c ∉ main_diag w sg := by
  unfold main_diag
  simp only [List.mem_append, List.mem_map, not_or]
  refine ⟨⟨?_, ?_, ?_⟩, ?_⟩
  · split_ifs <;> simp
  · rintro ⟨x, _, hx⟩
    exact Event.noConfusion hx
  · rintro ⟨x, _, hx⟩
    exact Event.noConfusion hx
  · split_ifs <;> simp

/-- A length outside `[3, 64]`: `main_derive` reports it and exits with status `1`. -/
theorem main_derive_out_of_range (w : World) (sg : sg_parms_t)
    (h : sg.outputlength < 3 ∨ 64 < sg.outputlength) :
    main_derive w sg =
      { events := main_diag w sg ++
          [Event.stderr ("Unable to generate password for output length " ++
            toString sg.outputlength)],
        status := 1 } := by
  have h2 : sg.outputlength < 3 ∨ sg.outputlength > 64 := h
  unfold main_derive
  simp only [if_pos h2]

/-- A length in `[3, 64]`: `main_derive` runs the encoder and prints the password line, and
only then looks at the return code of `genpass`. -/
theorem main_derive_in_range (w : World) (sg : sg_parms_t) (h3 : 3 ≤ sg.outputlength)
    (h64 : sg.outputlength ≤ 64) :
    (main_derive w sg).events =
      main_diag w sg ++
        [Event.encode sg.numbers_only sg.outputlength
          ((genpass w.SHA256 w.crypto_scrypt sg).dk.getD w.dk0),
         Event.stdout ((if sg.verbose then "Generated password: " else "") ++
          w.hashtopass sg.numbers_only sg.outputlength
            ((genpass w.SHA256 w.crypto_scrypt sg).dk.getD w.dk0) ++ "\n")] ++
        (if (genpass w.SHA256 w.crypto_scrypt sg).rc ≠ 0 then
          rc_warning (genpass w.SHA256 w.crypto_scrypt sg).rc 1 [sg.site] sg.keyfile
        else []) ∧
    (main_derive w sg).status =
      (if (genpass w.SHA256 w.crypto_scrypt sg).rc ≠ 0 then 1 else 0) := by
  have h2 : ¬ (sg.outputlength < 3 ∨ sg.outputlength > 64) := by omega
  unfold main_derive
  simp only [if_neg h2]
  by_cases hrc : (genpass w.SHA256 w.crypto_scrypt sg).rc ≠ 0
  · simp only [if_pos hrc]
    exact ⟨trivial, trivial⟩
  · simp only [if_neg hrc, List.append_nil]
    exact ⟨trivial, trivial⟩

/-- The length stored by `-l` is outside `[3, 64]` exactly when the value of `atoi` is: a
negative `int` becomes a length of at least `2 ^ 31`. -/
theorem to_unsigned_out_of_range (bits : Nat) (hbits : 32 ≤ bits) (i : Int)
    (hlo : -2 ^ 31 ≤ i) (hhi : i < 2 ^ 31) :
    (to_unsigned bits i < 3 ∨ 64 < to_unsigned bits i) ↔ (i < 3 ∨ 64 < i) := by
  have hP : (2 : Int) ^ 32 ≤ (2 : Int) ^ bits := pow_le_pow_right₀ (by norm_num) hbits
  unfold to_unsigned
  by_cases hneg : i < 0
  · have hmod : i % 2 ^ bits = i + 2 ^ bits := by
      rw [← Int.add_mul_emod_self_left i (2 ^ bits) 1, mul_one]
      exact Int.emod_eq_of_lt (by omega) (by omega)
    rw [hmod]
    omega
  · have hmod : i % 2 ^ bits = i := Int.emod_eq_of_lt (by omega) (by omega)
    rw [hmod]
    omega

/-- When `genpass` returns `3` nothing was stored in `dk`. -/
theorem genpass_dk_of_rc_three (SHA256 : List Nat → List Nat)
    (crypto_scrypt : ScryptArgs → Option (List Nat)) (sg : sg_parms_t)
    (h : (genpass SHA256 crypto_scrypt sg).rc = 3) :
    (genpass SHA256 crypto_scrypt sg).dk = none := by
  obtain ⟨_, h2, h3⟩ := genpass_eq SHA256 crypto_scrypt sg _ rfl
  rw [h3] at h
  rw [h2]
  split_ifs at h with hs
  · exact absurd h (by decide)
  · simpa using hs

/-- C11: a run of `main` that gets as far as the derivation (well-formed command line,
passphrase available, key file readable) exits with status `1` without running the password
encoder exactly when the stored output length is below `3` or above `64`, and then prints
only the diagnostics and the warning; for every length in `3 .. 64` the encoder is run with
that length and the password line is printed.  The length stored for `-l` is out of range
exactly when the value of `atoi` is, so `2` and `65` are rejected and `3` and `64` pass. -/
theorem main_output_length (w : World) (argc : Int) (opts : List Opt) (site : List Nat)
    (st : Parsed) (passwd passwd2 : List Nat) (passwdlen2 : Nat) (sg : sg_parms_t)
    (hargc : 1 ≤ argc) (hparse : parse_opts w init_parms opts = Except.ok st)
    (hpass : get_passwd w st = some passwd)
    (hkey : main_keyfile w st.keyfile passwd (strlen passwd) = Except.ok (passwd2, passwdlen2))
    (hsg : sg =
      { passwd := passwd2, passwdlen := passwdlen2, site := site, maxmem := st.maxmem,
        megaops := st.megaops, keyfile := st.keyfile, numbers_only := st.numbers_only,
        verbose := st.verbose, outputlength := st.outputlength }) :
    (((main w argc opts [site]).status = 1 ∧
        ∀ a b c, Event.encode a b c ∉ (main w argc opts [site]).events) ↔
      (st.outputlength < 3 ∨ 64 < st.outputlength)) ∧
    ((st.outputlength < 3 ∨ 64 < st.outputlength) →
      (main w argc opts [site]).events =
        main_diag w sg ++
          [Event.stderr ("Unable to generate password for output length " ++
            toString st.outputlength)]) ∧
    (3 ≤ st.outputlength → st.outputlength ≤ 64 →
      ∃ dk, Event.encode st.numbers_only st.outputlength dk ∈ (main w argc opts [site]).events ∧
        Event.stdout ((if st.verbose then "Generated password: " else "") ++
          w.hashtopass st.numbers_only st.outputlength dk ++ "\n")
          ∈ (main w argc opts [site]).events) ∧
    (∀ (st0 : Parsed) (i : Int), -2 ^ 31 ≤ i → i < 2 ^ 31 → 32 ≤ w.size_bits →
      ∃ st1, parse_step w st0 (Opt.l i) = Except.ok st1 ∧
        ((st1.outputlength < 3 ∨ 64 < st1.outputlength) ↔ (i < 3 ∨ 64 < i))) := by
  have hmain := main_reach w argc opts site st passwd passwd2 passwdlen2 hargc hparse hpass hkey
  rw [← hsg] at hmain
  have hlen : sg.outputlength = st.outputlength := by rw [hsg]
  have hno : sg.numbers_only = st.numbers_only := by rw [hsg]
  have hv : sg.verbose = st.verbose := by rw [hsg]
  rw [hmain]
  refine ⟨?_, ?_, ?_, ?_⟩
  · constructor
    · rintro ⟨_, hnone⟩
      by_contra hin
      have h3 : 3 ≤ sg.outputlength := by omega
      have h64 : sg.outputlength ≤ 64 := by omega
      have hev := (main_derive_in_range w sg h3 h64).1
      apply hnone sg.numbers_only sg.outputlength
        ((genpass w.SHA256 w.crypto_scrypt sg).dk.getD w.dk0)
      rw [hev]
      simp
    · intro hout
      rw [main_derive_out_of_range w sg (by rw [hlen]; exact hout)]
      refine ⟨rfl, ?_⟩
      intro a b c hmem
      simp only [List.mem_append, List.mem_singleton] at hmem
      rcases hmem with hmem | hmem
      · exact main_diag_no_encode w sg a b c hmem
      · exact Event.noConfusion hmem
  · intro hout
    rw [main_derive_out_of_range w sg (by rw [hlen]; exact hout), hlen]
  · intro h3 h64
    have hev := (main_derive_in_range w sg (by rw [hlen]; exact h3) (by rw [hlen]; exact h64)).1
    refine ⟨(genpass w.SHA256 w.crypto_scrypt sg).dk.getD w.dk0, ?_, ?_⟩
    · rw [hev, hno, hlen]
      simp
    · rw [hev, hno, hlen, hv]
      simp
  · intro st0 i hlo hhi hbits
    refine ⟨{ st0 with outputlength := to_unsigned w.size_bits i }, rfl, ?_⟩
    exact to_unsigned_out_of_range w.size_bits hbits i hlo hhi

/-- C11 on the command line `-p p -l 65 a`: the run exits with status `1` and the encoder is
not run. -/
theorem main_output_length_witness :
    (main
      { SHA256 := fun bs => bs, crypto_scrypt := fun a => some a.salt,
        hashtopass := fun _ _ _ => "pw", readpass := fun _ => none,
        readfile := fun _ => KeyfileRead.open_failed, SGVERSION := "", size_bits := 64,
        dk0 := [] }
      3 [Opt.p [112], Opt.l 65] [[97]]).status = 1 :=
  ((main_output_length
      { SHA256 := fun bs => bs, crypto_scrypt := fun a => some a.salt,
        hashtopass := fun _ _ _ => "pw", readpass := fun _ => none,
        readfile := fun _ => KeyfileRead.open_failed, SGVERSION := "", size_bits := 64,
        dk0 := [] }
      3 [Opt.p [112], Opt.l 65] [97]
      { passwd := some [112], passwdlen := 0, maxmem := 1000, megaops := 32, keyfile := none,
        numbers_only := 0, verbose := false, outputlength := 65, repeat_pass := false }
      [112] [112] 1 _ (by decide) rfl rfl rfl rfl).1.mpr (Or.inr (by decide))).1

/-- C19: in a run of `main` that gets as far as the derivation with an output length in
`3 .. 64`, the encoder is run on the `dk` buffer and the password line is printed before the
return code of `genpass` is looked at; when that code is not zero the warning comes after the
password line and the exit status is `1`.  With the code `3` (failure of the key-derivation
function) the buffer holds the bytes it had before the call. -/
theorem main_password_before_error (w : World) (argc : Int) (opts : List Opt)
    (site : List Nat) (st : Parsed) (passwd passwd2 : List Nat) (passwdlen2 : Nat)
    (sg : sg_parms_t) (hargc : 1 ≤ argc)
    (hparse : parse_opts w init_parms opts = Except.ok st)
    (hpass : get_passwd w st = some passwd)
    (hkey : main_keyfile w st.keyfile passwd (strlen passwd) = Except.ok (passwd2, passwdlen2))
    (hsg : sg =
      { passwd := passwd2, passwdlen := passwdlen2, site := site, maxmem := st.maxmem,
        megaops := st.megaops, keyfile := st.keyfile, numbers_only := st.numbers_only,
        verbose := st.verbose, outputlength := st.outputlength })
    (h3 : 3 ≤ st.outputlength) (h64 : st.outputlength ≤ 64) :
    (main w argc opts [site]).events =
      main_diag w sg ++
        [Event.encode st.numbers_only st.outputlength
          ((genpass w.SHA256 w.crypto_scrypt sg).dk.getD w.dk0),
         Event.stdout ((if st.verbose then "Generated password: " else "") ++
          w.hashtopass st.numbers_only st.outputlength
            ((genpass w.SHA256 w.crypto_scrypt sg).dk.getD w.dk0) ++ "\n")] ++
        (if (genpass w.SHA256 w.crypto_scrypt sg).rc ≠ 0 then
          rc_warning (genpass w.SHA256 w.crypto_scrypt sg).rc 1 [site] st.keyfile
        else []) ∧
    (main w argc opts [site]).status =
      (if (genpass w.SHA256 w.crypto_scrypt sg).rc ≠ 0 then 1 else 0) ∧
    ((genpass w.SHA256 w.crypto_scrypt sg).rc = 3 →
      (main w argc opts [site]).events =
        main_diag w sg ++
          [Event.encode st.numbers_only st.outputlength w.dk0,
           Event.stdout ((if st.verbose then "Generated password: " else "") ++
            w.hashtopass st.numbers_only st.outputlength w.dk0 ++ "\n"),
           Event.stderr "Error computing derived key"] ∧
      (main w argc opts [site]).status = 1) := by
  have hmain := main_reach w argc opts site st passwd passwd2 passwdlen2 hargc hparse hpass hkey
  rw [← hsg] at hmain
  have hlen : sg.outputlength = st.outputlength := by rw [hsg]
  have hno : sg.numbers_only = st.numbers_only := by rw [hsg]
  have hv : sg.verbose = st.verbose := by rw [hsg]
  have hsite : sg.site = site := by rw [hsg]
  have hkf : sg.keyfile = st.keyfile := by rw [hsg]
  obtain ⟨hev, hstat⟩ :=
    main_derive_in_range w sg (by rw [hlen]; exact h3) (by rw [hlen]; exact h64)
  rw [hlen, hno, hv, hsite, hkf] at hev
  rw [hmain]
  refine ⟨hev, hstat, ?_⟩
  intro hrc
  have hdk := genpass_dk_of_rc_three w.SHA256 w.crypto_scrypt sg hrc
  rw [hev, hstat, hrc, hdk]
  simp [rc_warning]

/-- C19 on the command line `-p p a` with a key-derivation function that fails: the encoder
is run at the default length `16`, the password line is printed, then the warning, and the
exit status is `1`. -/
theorem main_password_before_error_witness :
    (main
      { SHA256 := fun bs => bs, crypto_scrypt := fun _ => none,
        hashtopass := fun _ _ _ => "pw", readpass := fun _ => none,
        readfile := fun _ => KeyfileRead.open_failed, SGVERSION := "", size_bits := 64,
        dk0 := [7] }
      3 [Opt.p [112]] [[97]]).status = 1 ∧
    (genpass (fun bs => bs) (fun _ => none)
      { passwd := [112], passwdlen := 1, site := [97], maxmem := 1000, megaops := 32,
        keyfile := none, numbers_only := 0, verbose := false, outputlength := 16 }).rc = 3 := by
  have hrc : (genpass (fun bs => bs) (fun _ => none)
      { passwd := [112], passwdlen := 1, site := [97], maxmem := 1000, megaops := 32,
        keyfile := none, numbers_only := 0, verbose := false, outputlength := 16 }).rc = 3 :=
    (genpass_eq _ _ _ _ rfl).2.2
  exact ⟨((main_password_before_error
      { SHA256 := fun bs => bs, crypto_scrypt := fun _ => none,
        hashtopass := fun _ _ _ => "pw", readpass := fun _ => none,
        readfile := fun _ => KeyfileRead.open_failed, SGVERSION := "", size_bits := 64,
        dk0 := [7] }
      3 [Opt.p [112]] [97]
      { passwd := some [112], passwdlen := 0, maxmem := 1000, megaops := 32, keyfile := none,
        numbers_only := 0, verbose := false, outputlength := 16, repeat_pass := false }
      [112] [112] 1 _ (by decide) rfl rfl rfl rfl (by decide) (by decide)).2.2 hrc).2, hrc⟩

end Genpass
